import Mathlib

/-!
# ric-edge: RPC interceptor and Lua binary bridge

A shallow embedding of `internal/app/core/rpc/interceptor.go` and
`pkg/lua/func.go`, followed by the properties established about it.

Conventions of the embedding:

* a Go `[]byte` / `string` is a list of byte values (`Bytes`); ASCII literals
  are written `str "..."`;
* a Go slice is a `Slice`: the backing array from the slice's first element up
  to its capacity, and the length; slicing, `copy` and `append` act on the
  backing array, so aliasing between slices of one array is visible;
* a decoded JSON value (`interface{}` holding what `jsoniter` produces, or a
  `[]byte`) is a `JVal`; an `objx.Map` is an association list of keys to `JVal`;
* collaborators that are interfaces or libraries in the source (JSON codec,
  base64, action registry, state store, transport, id generator, scheduler)
  are fields of `Env`;
* side effects on collaborators are recorded, in program order, as `Event`s;
* `fillTemplate` recurses without a bound in the source; here it takes the
  number of calls it may make (`fuel`) and returns `none` when that runs out;
* the Lua bridge is embedded on the non-negative integral numbers.
-/

namespace RicEdge

/-! ## Bytes and the string helpers of the Go standard library -/

/-- A byte string: the contents of a Go `[]byte` or `string`. -/
abbrev Bytes := List Nat

/-- The bytes of an ASCII literal. -/
def str (s : String) : Bytes := s.toList.map Char.toNat

/-- The test `bytes.HasPrefix(s, sep)`. -/
def hasPrefix : Bytes → Bytes → Bool
  | _, [] => true
  | [], _ :: _ => false
  | c :: cs, d :: ds => c == d && hasPrefix cs ds

/-- The function `bytes.Index(s, sep)`: the index of the first instance of `sep` in `s`;
`none` stands for Go's `-1`. -/
def index : Bytes → Bytes → Option Nat
  | [], sep => if hasPrefix [] sep then some 0 else none
  | c :: cs, sep =>
    if hasPrefix (c :: cs) sep then some 0 else (index cs sep).map (· + 1)

/-- The function `strings.Trim(s, cutset)`: `s` without the leading and trailing bytes
that belong to `cutset`. -/
def trim (s cutset : Bytes) : Bytes :=
  ((s.dropWhile (cutset.contains ·)).reverse.dropWhile (cutset.contains ·)).reverse

/-- Worker of `removeAll`: `skip` counts the bytes of a matched instance still
to be dropped. -/
def removeAllAux (old : Bytes) : Nat → Bytes → Bytes
  | _, [] => []
  | skip + 1, _ :: cs => removeAllAux old skip cs
  | 0, c :: cs =>
    if hasPrefix (c :: cs) old then removeAllAux old (old.length - 1) cs
    else c :: removeAllAux old 0 cs

/-- The call `strings.ReplaceAll(s, old, "")` for a non-empty `old`: every
non-overlapping instance of `old`, taken from the left, is removed. -/
def removeAll (s old : Bytes) : Bytes := removeAllAux old 0 s

/-- The function `strings.TrimPrefix(s, p)`. -/
def trimPrefix (s p : Bytes) : Bytes :=
  if hasPrefix s p then s.drop p.length else s

/-! ## JSON values and `objx.Map` -/

/-- A dynamically typed value: what `interface{}` holds after JSON decoding
(`null` is Go's `nil`), or a `[]byte` (`bytes`). Number payloads are not
interpreted by the pipeline. -/
inductive JVal where
  | null
  | bool (b : Bool)
  | num (n : Int)
  | str (s : Bytes)
  | bytes (b : Bytes)
  | arr (xs : List JVal)
  | obj (kvs : List (Bytes × JVal))

/-- An `objx.Map` (`map[string]interface{}`). -/
abbrev Map := List (Bytes × JVal)

/-- Map indexing `m[k]`; a missing key gives `nil`. -/
def Map.lookup : Map → Bytes → JVal
  | [], _ => JVal.null
  | (k, v) :: rest, key => if k = key then v else Map.lookup rest key

/-- Map assignment `m[k] = v`. -/
def Map.insert : Map → Bytes → JVal → Map
  | [], key, v => [(key, v)]
  | (k, w) :: rest, key, v =>
    if k = key then (k, v) :: rest else (k, w) :: Map.insert rest key v

/-- The segments of a selector: `strings.Split(selector, ".")`. -/
def splitDot : Bytes → List Bytes
  | [] => [[]]
  | c :: cs =>
    if c = 46 then [] :: splitDot cs
    else match splitDot cs with
      | [] => [[c]]
      | h :: t => (c :: h) :: t

/-- Modelled from the spec: `objx` is not under src/; reading a dotted path
walks nested maps segment by segment, and anything that is not a map, or a
missing key, gives `nil`. Selectors that index into arrays are not covered. -/
def accessGet : JVal → List Bytes → JVal
  | cur, [] => cur
  | JVal.obj kvs, k :: rest => accessGet (Map.lookup kvs k) rest
  | _, _ :: _ => JVal.null

/-- Modelled from the spec: `objx` is not under src/; writing a dotted path
assigns the last segment in the innermost map and creates (or replaces by) an
empty map at every intermediate segment that does not hold a map. -/
def accessSet : Map → List Bytes → JVal → Map
  | m, [], _ => m
  | m, [k], v => Map.insert m k v
  | m, k :: k2 :: rest, v =>
    let child : Map := match Map.lookup m k with
      | JVal.obj c => c
      | _ => []
    Map.insert m k (JVal.obj (accessSet child (k2 :: rest) v))

/-- The method `objx.Map.Get(selector)` followed by `.Data()`. -/
def Map.Get (m : Map) (selector : Bytes) : JVal :=
  accessGet (JVal.obj m) (splitDot selector)

/-- The method `objx.Map.Set(selector, value)`. -/
def Map.Set (m : Map) (selector : Bytes) (v : JVal) : Map :=
  accessSet m (splitDot selector) v

/-- The method `Value.IsNil()`. -/
def JVal.IsNil : JVal → Bool
  | JVal.null => true
  | _ => false

/-- The method `Value.IsStr()`. -/
def JVal.IsStr : JVal → Bool
  | JVal.str _ => true
  | _ => false

/-- The method `Value.Str()`: the string held, or `""`. -/
def JVal.Str : JVal → Bytes
  | JVal.str s => s
  | _ => []

/-- The method `Value.Bool()`: the boolean held, or `false`. -/
def JVal.Bool : JVal → Bool
  | JVal.bool b => b
  | _ => false

/-! ## Go slices -/

/-- A Go byte slice: `arr` is the backing array from the slice's first element
to its capacity, `len` the slice's length (`len ≤ arr.length`). -/
structure Slice where
  arr : Bytes
  len : Nat

/-- The elements of the slice. -/
def Slice.bytes (s : Slice) : Bytes := s.arr.take s.len

/-- The capacity `cap(s)`. -/
def Slice.cap (s : Slice) : Nat := s.arr.length

/-- A slice whose capacity equals its length. -/
def Slice.ofBytes (b : Bytes) : Slice := ⟨b, b.length⟩

/-- The array after `copy(arr[pos:pos+n], src)`: `min n (len src)` bytes of
`src` are written from offset `pos` on. -/
def copyAt (arr : Bytes) (pos n : Nat) (src : Bytes) : Bytes :=
  arr.take pos ++ src.take n ++ arr.drop (pos + (src.take n).length)

/-- The call `append(s, src...)`. When `len + len(src)` fits the capacity the
bytes are written to the backing array in place; otherwise a new array is
allocated, with `grow cap needed` spare elements (the runtime's growth
policy). The flag tells whether the backing array was kept. -/
def goAppend (grow : Nat → Nat → Nat) (s : Slice) (src : Bytes) : Slice × Bool :=
  if s.len + src.length ≤ s.cap then
    (⟨copyAt s.arr s.len src.length src, s.len + src.length⟩, true)
  else
    (⟨s.bytes ++ src ++ List.replicate (grow s.cap (s.len + src.length)) 0,
      s.len + src.length⟩, false)

/-! ## The template engine -/

/-- What `fillTemplate` returns: the payload (`none` is a nil slice), the
`changed` flag and the error. -/
structure FillResult where
  res : Option Bytes
  changed : Bool
  err : Option Bytes
  deriving DecidableEq

/-- The name resolution of `fillTemplate`:
`s.obj.Config.Get(strings.ReplaceAll(strings.Trim(name, " {}"), "object.config.", "")).Str()`. -/
def resolve (config : Map) (name : Bytes) : Bytes :=
  (Map.Get config (removeAll (trim name (str " \x7b\x7d")) (str "object.config."))).Str

/-- The method `Service.fillTemplate`. The argument is the slice `data`; the result is the
backing array of `data` as the call leaves it, and the returned triple.
`fuel` bounds the recursion depth (`none`: not finished within `fuel`
calls). -/
def fillTemplate (config : Map) (grow : Nat → Nat → Nat) :
    Nat → Slice → Option (Bytes × FillResult)
  | 0, _ => none
  | fuel + 1, data =>
    match index data.bytes (str "\x7b\x7b") with
    | none => some (data.arr, ⟨some data.bytes, false, none⟩)
    | some begin =>
      match index (data.bytes.drop begin) (str "\x7d\x7d") with
      | none => some (data.arr, ⟨none, false, some (str "begin found but end not found")⟩)
      | some e =>
        let endPos := begin + e + 2
        let name := (data.bytes.take endPos).drop begin
        let beforeLen := name.length
        let name := resolve config name
        let finLen := name.length
        if finLen ≤ beforeLen then
          let a1 := copyAt data.arr begin (data.len - begin) name
          let a2 := copyAt a1 (begin + finLen) (data.len - (begin + finLen))
            ((a1.take data.len).drop endPos)
          match fillTemplate config grow fuel ⟨a2, data.len - (beforeLen - finLen)⟩ with
          | none => none
          | some (arr, r) => some (arr, ⟨r.res, true, r.err⟩)
        else
          let d1 := goAppend grow ⟨data.arr, begin⟩ name
          let shared := if d1.2 then d1.1.arr else data.arr
          let after := (shared.take data.len).drop endPos
          let d2 := goAppend grow d1.1 after
          match fillTemplate config grow fuel d2.1 with
          | none => none
          | some (arr, r) =>
            some (if d1.2 then (if d2.2 then arr else d1.1.arr) else data.arr,
              ⟨r.res, true, r.err⟩)

/-! ## Collaborators, errors and effects -/

/-- The base errors of `pkg/jsonrpc` used by the interceptor. -/
inductive ErrBase where
  | server
  | parse
  | internal
  deriving DecidableEq

/-- Modelled from the spec: `pkg/jsonrpc` is not under src/; a `jsonrpc.Error`
is its base error together with the data attached to it, in attachment
order. -/
structure RpcError where
  base : ErrBase
  data : List (Bytes × JVal)

/-- Modelled from the spec: `pkg/jsonrpc` is not under src/; `AddData` returns
the error with one more key/value attached. -/
def RpcError.AddData (e : RpcError) (k : Bytes) (v : JVal) : RpcError :=
  { e with data := e.data ++ [(k, v)] }

def errTimeout : RpcError :=
  RpcError.AddData ⟨ErrBase.server, []⟩ (str "msg") (JVal.str (str "timeout"))

def errUnmarshal : RpcError :=
  RpcError.AddData ⟨ErrBase.parse, []⟩ (str "msg") (JVal.str (str "json unmarshal error"))

def errBadIDType : RpcError :=
  RpcError.AddData ⟨ErrBase.internal, []⟩ (str "msg")
    (JVal.str (str "id should be string or null"))

/-- The collaborators of a `Service`. -/
structure Env where
  /-- The object's configuration tree `s.obj.Config`. -/
  config : Map
  /-- Spare capacity the runtime gives a reallocated slice
  (old capacity, needed length). -/
  grow : Nat → Nat → Nat
  /-- The decoder `jsoniter.ConfigFastest.Unmarshal` into an `objx.Map`; `error` carries
  `err.Error()`, and `ok none` is a nil map (what the text `null` decodes
  to, without error). -/
  unmarshal : Bytes → Except Bytes (Option Map)
  /-- The encoder `jsoniter.ConfigFastest.Marshal`; `none` is a marshalling error. -/
  marshal : JVal → Option Bytes
  /-- The decoder `base64.StdEncoding.DecodeString`; `none` is a decoding error. -/
  b64decode : Bytes → Option Bytes
  /-- The method `action.Execute(name, data)`: the result and whether `err != nil`. -/
  execute : Bytes → JVal → JVal × Bool
  /-- The method `state.Set(key, value)`: whether `err != nil`. -/
  stateSet : Bytes → JVal → Bool
  /-- The generator `nanoid.New()`. -/
  newID : Bytes
  /-- The method `rpc.Call(name, id, payload)` raced against the timer: the message
  received on the result channel, or `none` when the timer fires first. -/
  rpcCall : Bytes → Bytes → Bytes → Option Bytes
  /-- The builder `jsonrpc.BuildErrResp(id, err)`. -/
  buildErrResp : Bytes → RpcError → Bytes
  /-- The method `job.AddFunc(interval, fn)` of the scheduler, given the number of
  earlier `AddFunc` calls: a handle, or an error. -/
  addFunc : Nat → Bytes → Except Bytes Nat

/-- An effect on a collaborator. A `stateSet` records the call
`s.state.Set(key, value)` and whether it returned an error. -/
inductive Event where
  | execute (name : Bytes) (data : JVal)
  | stateSet (key : Bytes) (value : JVal) (failed : Bool)
  | stateSend (msg : Bytes)
  | rpcCall (name id payload : Bytes)
  | jobAdd (interval connector payload : Bytes)
  | jobRemove (id : Nat)
  | subscribe (connector payload : Bytes)
  | actionRemove (name : Bytes)

/-! ## State publishing, response pipeline, notification listener -/

/-- The method `Service.sendState`: the message sent on `s.stateCh`. A marshalling error
is logged and the nil slice is sent. -/
def sendState (env : Env) (parent : Bytes) (value : JVal) : List Event :=
  let parent := trimPrefix parent (str "edge.")
  let data : Map := Map.Set [] parent value
  [Event.stateSend ((env.marshal (JVal.obj data)).getD [])]

/-- The base64 step shared by `prepareResponse` and `requestsListener`: a
string that decodes is replaced by the decoded bytes. -/
def decodeIfStr (env : Env) (m : Map) (selector : Bytes) : Map :=
  if (Map.Get m selector).IsStr then
    match env.b64decode (Map.Get m selector).Str with
    | some decoded => Map.Set m selector (JVal.bytes decoded)
    | none => m
  else m

/-- The action step shared by `prepareResponse` and `requestsListener`: the
result of the read action on the value at `selector`, or that value itself
when the action gives `nil`. -/
def readValue (env : Env) (name : Bytes) (m : Map) (selector : Bytes) : JVal :=
  let res := (env.execute name (Map.Get m selector)).1
  if res.IsNil then Map.Get m selector else res

/-- The method `Service.prepareResponse`: the bytes returned and the effects. Reading
a nil map gives `nil`, as reading an empty one does, and the map is written
only after a non-nil `result` was read from it. -/
def prepareResponse (env : Env) (req : Map) (resp : Bytes) : Bytes × List Event :=
  let parent := (Map.Get req (str "params._parent")).Str
  if parent = [] then (resp, [])
  else
    match env.unmarshal resp with
    | Except.error _ => (resp, [])
    | Except.ok decoded =>
      let result := decoded.getD []
      if (Map.Get result (str "result")).IsNil then (resp, [])
      else if (Map.Get result (str "result.notification")).Bool then (resp, [])
      else
        let result := decodeIfStr env result (str "result")
        let name := str "read." ++ parent
        let res := readValue env name result (str "result")
        let events := [Event.execute name (Map.Get result (str "result")),
          Event.stateSet parent res (env.stateSet parent res)] ++ sendState env parent res
        let result := Map.Set result (str "result") res
        match env.marshal (JVal.obj result) with
        | none => (resp, events)
        | some data => (data, events)

/-- One iteration of the loop of `Service.requestsListener`, for the message
`msg` received on `s.requestsCh`. -/
def requestsListenerStep (env : Env) (msg : Bytes) : List Event :=
  match env.unmarshal msg with
  | Except.error _ => []
  | Except.ok decoded =>
    let request := decoded.getD []
    if (Map.Get request (str "params.value")).IsNil then []
    else
      let parent := (Map.Get request (str "params.__request_params._parent")).Str
      if parent = [] then []
      else
        let request := decodeIfStr env request (str "params.value")
        let name := str "read." ++ parent
        let res := readValue env name request (str "params.value")
        let events := [Event.execute name (Map.Get request (str "params.value")),
          Event.stateSet parent res (env.stateSet parent res)]
        if env.stateSet parent res then events
        else events ++ sendState env parent res

/-- The method `Service.requestsListener`: the messages of the channel are handled one
after the other, in arrival order. -/
def requestsListener (env : Env) (msgs : List Bytes) : List Event :=
  msgs.flatMap (requestsListenerStep env)

/-! ## Request pipeline and call correlation -/

/-- How `prepareRequest` ends: with the payload and the decoded envelope, with
a `jsonrpc.Error`, or in a panic (`panic(err)` when the changed envelope
does not marshal, or the write to a nil map). -/
inductive Prepared where
  | ok (payload : Bytes) (data : Map)
  | error (e : RpcError)
  | panic

/-- What a call of `prepareRequest` leaves behind. -/
structure PrepareOut where
  /-- The backing array of the caller's payload slice after the call. -/
  buf : Bytes
  events : List Event
  out : Prepared

/-- The write-action step of `prepareRequest`: the envelope, the `changed`
flag and the effects. -/
def writeAction (env : Env) (data : Map) (changed : Bool) : Map × Bool × List Event :=
  if (Map.Get data (str "params._type")).Str = str "write" then
    let parent := (Map.Get data (str "params._parent")).Str
    if parent ≠ [] then
      let name := str "write." ++ parent
      let r := env.execute name (Map.Get data (str "params.value"))
      let ev := [Event.execute name (Map.Get data (str "params.value"))]
      if r.2 then (data, changed, ev)
      else (Map.Set data (str "params.value") r.1, true, ev)
    else (data, changed, [])
  else (data, changed, [])

/-- The method `Service.prepareRequest` on the slice `payload` (`none`: the template
recursion did not finish within `fuel` calls). On a nil map the id reads as
`nil` and `data.Set("id", ...)` panics (assignment to an entry of a nil
map). -/
def prepareRequest (env : Env) (fuel : Nat) (payload : Slice) : Option PrepareOut :=
  match fillTemplate env.config env.grow fuel payload with
  | none => none
  | some (buf, filled) =>
    match filled.err with
    | some err =>
      some ⟨buf, [], Prepared.error (errUnmarshal.AddData (str "err") (JVal.str err))⟩
    | none =>
      let payload := filled.res.getD []
      match env.unmarshal payload with
      | Except.error err =>
        some ⟨buf, [], Prepared.error (errUnmarshal.AddData (str "err") (JVal.str err))⟩
      | Except.ok none => some ⟨buf, [], Prepared.panic⟩
      | Except.ok (some data) =>
        let id := Map.Get data (str "id")
        if !id.IsNil && !id.IsStr then
          some ⟨buf, [], Prepared.error (errBadIDType.AddData (str "current_id") id)⟩
        else
          let step := if id.IsNil
            then (Map.Set data (str "id") (JVal.str env.newID), true)
            else (data, filled.changed)
          let w := writeAction env step.1 step.2
          if w.2.1 then
            match env.marshal (JVal.obj w.1) with
            | none => some ⟨buf, w.2.2, Prepared.panic⟩
            | some out => some ⟨buf, w.2.2, Prepared.ok out w.1⟩
          else some ⟨buf, w.2.2, Prepared.ok payload w.1⟩

/-- What a call of `Call` leaves behind. -/
structure CallOut where
  /-- The backing array of the caller's payload slice after the call. -/
  buf : Bytes
  events : List Event
  /-- The bytes returned; `none` when the call panicked. -/
  resp : Option Bytes

/-- The method `Service.Call`. The `select` between the result channel and the timer is
the outcome of `env.rpcCall`. -/
def Call (env : Env) (fuel : Nat) (name : Bytes) (payload : Slice) : Option CallOut :=
  match prepareRequest env fuel payload with
  | none => none
  | some p =>
    match p.out with
    | Prepared.error e => some ⟨p.buf, p.events, some (env.buildErrResp [] e)⟩
    | Prepared.panic => some ⟨p.buf, p.events, none⟩
    | Prepared.ok payload data =>
      let id := (Map.Get data (str "id")).Str
      let events := p.events ++ [Event.rpcCall name id payload]
      match env.rpcCall name id payload with
      | some msg =>
        if (Map.Get data (str "params._type")).Str = str "read" then
          let r := prepareResponse env data msg
          some ⟨p.buf, events ++ r.2, some r.1⟩
        else some ⟨p.buf, events, some msg⟩
      | none => some ⟨p.buf, events, some (env.buildErrResp id errTimeout)⟩

/-! ## Jobs -/

/-- The fields of `cloud.ActionConfig` the interceptor reads. -/
structure ActionConfig where
  ID : Bytes
  type : Bytes
  Connector : Bytes
  Payload : Slice
  Interval : Bytes

/-- The fields of `Service` that change: the tracked job handles, and the
names of the model's expressions. -/
structure Service where
  jobs : List Nat
  expressions : List Bytes

/-- What a call of `spawnJobs` leaves behind. -/
structure SpawnOut where
  /-- The field `s.jobs` of the receiver when the method returns. The receiver is
  a copy of the caller's `Service` (value receiver), so this list is
  dropped with it. -/
  jobs : List Nat
  events : List Event
  err : Option Bytes

/-- The loop of `Service.spawnJobs` over the action configs, in iteration
order; `added` counts the `AddFunc` calls made so far. -/
def spawnLoop (env : Env) : List ActionConfig → Nat → List Nat → SpawnOut
  | [], _, jobs => ⟨jobs, [], none⟩
  | v :: rest, added, jobs =>
    if v.type = str "schedule" then
      let ev := Event.jobAdd v.Interval v.Connector v.Payload.bytes
      match env.addFunc added v.Interval with
      | Except.error err =>
        ⟨jobs, [ev], some (str "spawn [" ++ v.ID ++ str "]: " ++ err)⟩
      | Except.ok id =>
        let r := spawnLoop env rest (added + 1) (jobs ++ [id])
        ⟨r.jobs, ev :: r.events, r.err⟩
    else if v.type = str "subscribe" then
      let r := spawnLoop env rest added jobs
      ⟨r.jobs, Event.subscribe v.Connector v.Payload.bytes :: r.events, r.err⟩
    else ⟨jobs, [], some (str "spawn: wrong type " ++ v.type)⟩

/-- The method `Service.spawnJobs`, called on (a copy of) `s`. -/
def spawnJobs (env : Env) (s : Service) (actions : List ActionConfig) : SpawnOut :=
  spawnLoop env actions 0 s.jobs

/-- The tail of `New`, from the construction of `s` on (the state service,
object and model are loaded and the expressions registered): the `Service`
and the error returned, and the effects of `spawnJobs`. The `Service`
returned is `s` itself: `spawnJobs` worked on a copy. -/
def New (env : Env) (expressions : List Bytes) (actions : List ActionConfig) :
    Service × Option Bytes × List Event :=
  let s : Service := ⟨[], expressions⟩
  let r := spawnJobs env s actions
  (s, r.err, r.events)

/-- The job body built by `Service.buildJobFn`: `s.Call(v.Connector, v.Payload)`,
run when the backing array of `v.Payload` holds `buf` (the slice header
`v.Payload` itself never changes between ticks). -/
def buildJobFn (env : Env) (fuel : Nat) (v : ActionConfig) (buf : Bytes) : Option CallOut :=
  Call env fuel v.Connector ⟨buf, v.Payload.len⟩

/-- The method `Service.undoAll`. -/
def undoAll (s : Service) : List Event :=
  s.jobs.map Event.jobRemove ++ s.expressions.map Event.actionRemove

/-! ## The binary bridge of the Lua runtime (`pkg/lua/func.go`) -/

/-- A Lua value as the bridge functions see it. An `LNumber` is a `float64`;
the embedding covers the non-negative integral ones, held as a natural
number. -/
inductive LValue where
  | nil
  | number (n : Nat)
  | string (s : Bytes)
  | userdata (b : Bytes)
  | other
  deriving DecidableEq

/-- How a bridge function ends: it raises a Lua error, or returns the values
it pushed. -/
inductive LuaResult where
  | raise (msg : Bytes)
  | ret (vals : List LValue)
  deriving DecidableEq

/-- The two values of `binary.ByteOrder` in use. -/
inductive ByteOrder where
  | LittleEndian
  | BigEndian
  deriving DecidableEq

/-- The function `getBinaryOrder`, on the second argument of the Lua call. -/
def getBinaryOrder (endianV : LValue) : Except Bytes ByteOrder :=
  let endian : Except Bytes Bytes := match endianV with
    | LValue.nil => Except.ok (str "little")
    | LValue.string s => Except.ok s
    | _ => Except.error (str "string expected")
  match endian with
  | Except.error e => Except.error e
  | Except.ok endian =>
    if endian = str "little" then Except.ok ByteOrder.LittleEndian
    else if endian = str "big" then Except.ok ByteOrder.BigEndian
    else Except.error (str "little or big endian allowed, but given: " ++ endian)

/-- The function `getSize`, on the third argument of the Lua call (the
formatted number is left out of the error text). -/
def getSize (sizeV : LValue) : Except Bytes Nat :=
  let size : Except Bytes Nat := match sizeV with
    | LValue.nil => Except.ok 32
    | LValue.number n => Except.ok n
    | _ => Except.error (str "number expected")
  match size with
  | Except.error e => Except.error e
  | Except.ok size =>
    if size = 16 ∨ size = 32 ∨ size = 64 then Except.ok size
    else Except.error (str "16, 32 or 64 size allowed")

/-- The little-endian bytes of `v`, `n` of them. -/
def leBytes : Nat → Nat → Bytes
  | 0, _ => []
  | n + 1, v => v % 256 :: leBytes n (v / 256)

/-- The value of a little-endian byte string. -/
def leValue : Bytes → Nat
  | [] => 0
  | b :: bs => b + 256 * leValue bs

/-- The methods `order.PutUint16`, `PutUint32`, `PutUint64` on a fresh buffer of
`size / 8` bytes; `v` is below `2 ^ size`. -/
def putUint (order : ByteOrder) (size v : Nat) : Bytes :=
  match order with
  | ByteOrder.LittleEndian => leBytes (size / 8) v
  | ByteOrder.BigEndian => (leBytes (size / 8) v).reverse

/-- The methods `order.Uint16`, `Uint32`, `Uint64`: the value of the first `size / 8`
bytes of `b`. -/
def getUint (order : ByteOrder) (size : Nat) (b : Bytes) : Nat :=
  match order with
  | ByteOrder.LittleEndian => leValue (b.take (size / 8))
  | ByteOrder.BigEndian => leValue (b.take (size / 8)).reverse

/-- The conversion of an unsigned integer below `2 ^ 64` to `float64`
(`lua.LNumber(x)`): exact below `2 ^ 53`, else rounded to 53 significant
bits, ties to even. -/
def toFloat64 (x : Nat) : Nat :=
  if x < 2 ^ 53 then x
  else
    let e := Nat.log2 x - 52
    let q := x / 2 ^ e
    let r := x % 2 ^ e
    let half := 2 ^ (e - 1)
    if r < half then q * 2 ^ e
    else if r = half ∧ q % 2 = 0 then q * 2 ^ e
    else (q + 1) * 2 ^ e

/-- The conversions `uint16(num)`, `uint32(num)`, `uint64(num)` of a non-negative
integral `float64`. A value the type represents converts exactly. For one
it does not, Go leaves the result to the implementation: `overflow size n`
is what the platform yields, kept within the type. -/
def toUint (overflow : Nat → Nat → Nat) (size n : Nat) : Nat :=
  if n < 2 ^ size then n else overflow size n % 2 ^ size

/-- The method `ls.CheckString(1)` of the Lua state: a string is taken as it is, a
number is coerced to its text (`numToString`), anything else raises a type
error. -/
def checkString (numToString : Nat → Bytes) : LValue → Except Bytes Bytes
  | LValue.string s => Except.ok s
  | LValue.number n => Except.ok (numToString n)
  | LValue.userdata _ => Except.error (str "string expected, got userdata")
  | LValue.nil => Except.error (str "string expected, got nil")
  | LValue.other => Except.error (str "string expected")

/-- The function `binaryToNumber` on the three arguments of the Lua call (the
formatted lengths are left out of the error text). -/
def binaryToNumber (numToString : Nat → Bytes) (d endianV sizeV : LValue) : LuaResult :=
  match checkString numToString d with
  | Except.error e => LuaResult.raise e
  | Except.ok bytes =>
    match getBinaryOrder endianV with
    | Except.error e => LuaResult.raise e
    | Except.ok order =>
      match getSize sizeV with
      | Except.error e => LuaResult.raise e
      | Except.ok size =>
        let bLen := size / 8
        if bytes.length < bLen then
          LuaResult.raise (str "binary should have length at least")
        else LuaResult.ret [LValue.number (toFloat64 (getUint order size bytes))]

/-- The function `numberToBinary`; `parseFloat` is `strconv.ParseFloat(s, 64)`. -/
def numberToBinary (overflow : Nat → Nat → Nat) (parseFloat : Bytes → Except Bytes Nat)
    (d endianV sizeV : LValue) : LuaResult :=
  let num : Except (List LValue) Nat := match d with
    | LValue.number v => Except.ok v
    | LValue.string v =>
      match parseFloat v with
      | Except.error err => Except.error [LValue.nil, LValue.string err]
      | Except.ok fl => Except.ok fl
    | _ => Except.error [LValue.nil, LValue.string (str "number or string required")]
  match num with
  | Except.error vals => LuaResult.ret vals
  | Except.ok num =>
    match getBinaryOrder endianV with
    | Except.error e => LuaResult.raise e
    | Except.ok order =>
      match getSize sizeV with
      | Except.error e => LuaResult.raise e
      | Except.ok size =>
        LuaResult.ret [LValue.userdata (putUint order size (toUint overflow size num))]

/-! ## A test double of the collaborators -/

mutual
/-- A JSON text of a value (a `[]byte` is written like a string). -/
def encode : JVal → Bytes
  | JVal.null => str "null"
  | JVal.bool true => str "true"
  | JVal.bool false => str "false"
  | JVal.num (Int.ofNat n) => (Nat.toDigits 10 n).map Char.toNat
  | JVal.num (Int.negSucc n) => 45 :: (Nat.toDigits 10 (n + 1)).map Char.toNat
  | JVal.str s => [34] ++ s ++ [34]
  | JVal.bytes b => [34] ++ b ++ [34]
  | JVal.arr xs => [91] ++ encodeItems xs ++ [93]
  | JVal.obj kvs => [123] ++ encodeFields kvs ++ [125]
/-- The items of an array, comma separated. -/
def encodeItems : List JVal → Bytes
  | [] => []
  | x :: rest => encode x ++ (if rest.isEmpty then [] else [44]) ++ encodeItems rest
/-- The fields of an object, comma separated. -/
def encodeFields : List (Bytes × JVal) → Bytes
  | [] => []
  | (k, v) :: rest =>
    [34] ++ k ++ [34, 58] ++ encode v ++ (if rest.isEmpty then [] else [44])
      ++ encodeFields rest
end

/-- A decoder for a known set of documents: the one whose JSON text is `b`;
the text `null` decodes to the nil map. -/
def decodeAmong (docs : List Map) (b : Bytes) : Except Bytes (Option Map) :=
  if b = str "null" then Except.ok none
  else match docs.find? (fun m => encode (JVal.obj m) == b) with
    | some m => Except.ok (some m)
    | none => Except.error (str "invalid json")

/-- Collaborators for evaluating the pipeline on concrete inputs: the codec
above over the documents `docs`, no registered action (`Execute` returns
`nil` and an error), a state store that accepts every write, a transport
that never answers, a scheduler that numbers its handles from 1. -/
def testEnv (config : Map) (docs : List Map) : Env where
  config := config
  grow := fun _ _ => 0
  unmarshal := decodeAmong docs
  marshal := fun v => some (encode v)
  b64decode := fun _ => none
  execute := fun _ _ => (JVal.null, true)
  stateSet := fun _ _ => false
  newID := str "id-1"
  rpcCall := fun _ _ _ => none
  buildErrResp := fun id e => encode (JVal.obj [(str "id", JVal.str id),
    (str "error", JVal.obj e.data)])
  addFunc := fun added _ => Except.ok (added + 1)

/-! ## Sample data -/

/-- The template payload `{"x":"{{ object.config.sensor_id }}"}`. -/
def tplSensor : Bytes := str "\x7b\"x\":\"\x7b\x7b object.config.sensor_id \x7d\x7d\"\x7d"

/-- The buffer of `tplSensor` after the substitution in place: `{"x":"42"}`
followed by what is left of the old bytes. -/
def bufSensor : Bytes := str "\x7b\"x\":\"42\"\x7dbject.config.sensor_id \x7d\x7d\"\x7d"

/-- The request `{"x":"42","id":"id-1"}`. -/
def sentSensor : Bytes := str "\x7b\"x\":\"42\",\"id\":\"id-1\"\x7d"

/-- The payload `{"x":"42"}`. -/
def outSensor : Bytes := str "\x7b\"x\":\"42\"\x7d"

/-- The template payload `{"x":"{{a}}","y":1}`. -/
def tplGrow : Bytes := str "\x7b\"x\":\"\x7b\x7ba\x7d\x7d\",\"y\":1\x7d"

/-- The bytes `{"x":"1234567896789":1}`. -/
def outGrow : Bytes := str "\x7b\"x\":\"1234567896789\":1\x7d"

/-- The template payload `{"a":"{{x}}{{"}`, whose second `{{` is not closed. -/
def tplOpen : Bytes := str "\x7b\"a\":\"\x7b\x7bx\x7d\x7d\x7b\x7b\"\x7d"

/-- The request `{"a":"123456767","id":"id-1"}`. -/
def sentOpen : Bytes := str "\x7b\"a\":\"123456767\",\"id\":\"id-1\"\x7d"

/-- The payload `{"a":"123456767"}`. -/
def outOpen : Bytes := str "\x7b\"a\":\"123456767\"\x7d"

/-- The response `{"result":{"notification":true}}`. -/
def respNotifying : Bytes := str "\x7b\"result\":\x7b\"notification\":true\x7d\x7d"

/-- The response `{"result":25}`. -/
def respResult : Bytes := str "\x7b\"result\":25\x7d"

/-- The state message `{"sensor":{"temp":25}}`. -/
def pubSensorTemp : Bytes := str "\x7b\"sensor\":\x7b\"temp\":25\x7d\x7d"

/-- The request `{"id":""}`. -/
def reqEmptyId : Bytes := str "\x7b\"id\":\"\"\x7d"

/-! ## Vocabulary of the statements -/

/-- The number of messages sent on the state channel. -/
def sends (events : List Event) : Nat :=
  (events.filter (fun e => match e with
    | Event.stateSend _ => true
    | _ => false)).length

/-- The value after the base64 step: a string that decodes becomes the
decoded bytes, anything else stays. -/
def decodedValue (env : Env) (v : JVal) : JVal :=
  match v with
  | JVal.str s =>
    match env.b64decode s with
    | some d => JVal.bytes d
    | none => v
  | _ => v

/-- The test double with a state store that rejects every write. -/
def failingStoreEnv (config : Map) (docs : List Map) : Env :=
  { testEnv config docs with stateSet := fun _ _ => true }

/-- The test double with a base64 decoder that knows the text `MjU=`. -/
def decodingEnv (config : Map) (docs : List Map) : Env :=
  { testEnv config docs with
    b64decode := fun s => if s = str "MjU=" then some (str "25") else none }

/-- The calls of `rpc.Call` among the effects: name, id and payload, in order. -/
def rpcCalls (events : List Event) : List (Bytes × Bytes × Bytes) :=
  events.filterMap (fun e => match e with
    | Event.rpcCall name id payload => some (name, id, payload)
    | _ => none)

/-- The calls of `Set` among the effects: key and value, in order. -/
def stateSets (events : List Event) : List (Bytes × JVal) :=
  events.filterMap (fun e => match e with
    | Event.stateSet key value _ => some (key, value)
    | _ => none)

/-- A decoded read request for the parent `edge.sensor.temp`. -/
def sampleReadReq : Map :=
  [(str "id", JVal.str (str "r1")),
   (str "params", JVal.obj [(str "_type", JVal.str (str "read")),
     (str "_parent", JVal.str (str "edge.sensor.temp"))])]

/-- The decoded response `{"result":25}`. -/
def sampleResult : Map := [(str "result", JVal.num 25)]

/-- The decoded response `{"result":{"notification":true}}`. -/
def sampleNotifying : Map :=
  [(str "result", JVal.obj [(str "notification", JVal.bool true)])]

/-- A decoded notification carrying the value 25 for `edge.sensor.temp`. -/
def sampleNotification : Map :=
  [(str "params", JVal.obj [(str "value", JVal.num 25),
     (str "__request_params", JVal.obj [(str "_parent", JVal.str (str "edge.sensor.temp"))])])]

/-- The decoded response `{"result":"MjU="}`, whose result is the base64 text
of the two bytes `25`. -/
def sampleEncoded : Map := [(str "result", JVal.str (str "MjU="))]

/-- The documents the test decoder knows. -/
def sampleDocs : List Map :=
  [sampleResult, sampleNotifying, sampleNotification, sampleEncoded, [(str "id", JVal.str [])],
   [(str "a", JVal.str (str "123456767"))], [(str "x", JVal.str (str "42"))]]

/-- The configuration tree of the examples. -/
def sampleConfig : Map :=
  [(str "sensor_id", JVal.str (str "42")), (str "a", JVal.str (str "123456789")),
   (str "x", JVal.str (str "1234567"))]

/-- A payload cut into pieces, each a text followed by a marker span given by
its path, and a last text; `f` turns a path into the bytes that stand for
it. -/
def joinPieces (f : Bytes → Bytes) : List (Bytes × Bytes) → Bytes → Bytes
  | [], tail => tail
  | (t, x) :: ps, tail => t ++ f x ++ joinPieces f ps tail

/-- The marker span `{{ object.config.<path> }}`. -/
def marker (path : Bytes) : Bytes := str "\x7b\x7b object.config." ++ path ++ str " \x7d\x7d"

/-- Follows the spec's words "resolve the remaining dotted path against the
per-device configuration tree, yielding a string (empty string if the path
is unresolved)": the string the configuration holds at the dotted path. -/
def valueAt (config : Map) (path : Bytes) : Bytes := (Map.Get config path).Str

/-- A path that holds no further `object.config.` and does not end in a
space or a brace. -/
def PlainPath (path : Bytes) : Prop :=
  (∀ a b, path ≠ a ++ str "object.config." ++ b)
    ∧ ∀ c, path.getLast? = some c → c ≠ 32 ∧ c ≠ 123 ∧ c ≠ 125

/-- A marker span: it starts with `{{` and ends with the first `}}` found
from its start. -/
def IsMarker (m : Bytes) : Prop :=
  hasPrefix m (str "\x7b\x7b") = true
    ∧ ∃ e, index m (str "\x7d\x7d") = some e ∧ e + 2 = m.length

/-- The marker spans of the pieces are the ones the scan meets, and no
substitution creates a `{{`: with `acc` the part already substituted, the
first `{{` of what the payload has become is where the next marker span
starts, and once all are substituted no `{{` is left. `inF` gives the
marker span of a piece and `outF` what replaces it. -/
def ScanMeets (inF outF : Bytes → Bytes) : Bytes → List (Bytes × Bytes) → Bytes → Prop
  | acc, [], tail => index (acc ++ tail) (str "\x7b\x7b") = none
  | acc, (t, x) :: ps, tail =>
    index (acc ++ t ++ inF x ++ joinPieces inF ps tail) (str "\x7b\x7b") = some (acc ++ t).length
      ∧ ScanMeets inF outF (acc ++ t ++ outF x) ps tail

/-- A configuration with the string `1` at `a.b` and nothing at
`a.object.config.b`. -/
def nestedConfig : Map := [(str "a", JVal.obj [(str "b", JVal.str (str "1"))])]

/-- A configuration with the string `1` at `a` and other strings at `a}`,
`a{` and `a` followed by a space. -/
def braceConfig : Map :=
  [(str "a", JVal.str (str "1")), (str "a\x7d", JVal.str (str "2")),
   (str "a\x7b", JVal.str (str "3")), (str "a ", JVal.str (str "4"))]

/-- The platform conversion as compiled for amd64: `uint16(f)` converts to a
32-bit signed integer, which is `0x80000000` out of range, and truncates;
`uint32(f)` converts to a 64-bit signed integer and truncates. -/
def overflowViaInt32 (size n : Nat) : Nat :=
  if size = 16 then (if n < 2 ^ 31 then n else 2 ^ 31)
  else if n < 2 ^ 63 then n else 2 ^ 63

/-- The action config of a scheduled job whose payload is the template
`{"x":"{{ object.config.sensor_id }}"}`. -/
def sampleJob : ActionConfig :=
  ⟨str "a1", str "schedule", str "modbus",
    Slice.ofBytes tplSensor, str "@every 1s"⟩

/-! # Properties -/

/-! ## Lemmas on the byte codec -/

theorem leBytes_length (k v : Nat) : (leBytes k v).length = k := by
  induction k generalizing v with
  | zero => rfl
  | succ k ih => simp [leBytes, ih]

theorem leValue_leBytes (k v : Nat) : leValue (leBytes k v) = v % 256 ^ k := by
  induction k generalizing v with
  | zero => simp [leBytes, leValue, Nat.mod_one]
  | succ k ih =>
    simp only [leBytes, leValue, ih]
    rw [pow_succ, Nat.mul_comm (256 ^ k) 256, Nat.mod_mul]

theorem getUint_putUint (order : ByteOrder) (size v : Nat) :
    getUint order size (putUint order size v) = v % 256 ^ (size / 8) := by
  cases order <;>
    simp [getUint, putUint, List.take_of_length_le, leBytes_length, leValue_leBytes]

theorem toUint_lt (overflow : Nat → Nat → Nat) (size n : Nat) :
    toUint overflow size n < 2 ^ size := by
  unfold toUint
  split
  · assumption
  · exact Nat.mod_lt _ (by positivity)

theorem toUint_of_lt (overflow : Nat → Nat → Nat) (size n : Nat) (h : n < 2 ^ size) :
    toUint overflow size n = n := by
  simp [toUint, h]

theorem toFloat64_of_lt (x : Nat) (h : x < 2 ^ 53) : toFloat64 x = x := by
  unfold toFloat64
  rw [if_pos h]

theorem toUint_viaInt32 (size n : Nat) (hsize : size = 16 ∨ size = 32 ∨ size = 64)
    (hn : n < 2 ^ 53) (hwrap : size = 32 ∨ size = 64 ∨ n < 2 ^ 31) :
    toUint overflowViaInt32 size n = n % 2 ^ size := by
  unfold toUint
  by_cases hc : n < 2 ^ size
  · rw [if_pos hc, Nat.mod_eq_of_lt hc]
  · rw [if_neg hc]
    rcases hsize with h | h | h <;> subst h
    · have h31 : n < 2 ^ 31 := by
        rcases hwrap with h | h | h
        · norm_num at h
        · norm_num at h
        · exact h
      have h31' : n < 2147483648 := by norm_num at h31; exact h31
      simp [overflowViaInt32, h31']
    · have h63 : n < 2 ^ 63 := lt_trans hn (by norm_num)
      have h63' : n < 9223372036854775808 := by norm_num at h63; exact h63
      simp [overflowViaInt32, h63']
    · exact absurd (lt_trans hn (by norm_num)) hc

theorem numberToBinary_bytes (overflow : Nat → Nat → Nat)
    (parseFloat : Bytes → Except Bytes Nat) (numToString : Nat → Bytes) (endian : Bytes)
    (size n : Nat) (hsize : size = 16 ∨ size = 32 ∨ size = 64)
    (hendian : endian = str "little" ∨ endian = str "big")
    (hn : n < 2 ^ 53) :
    ∃ b, numberToBinary overflow parseFloat (LValue.number n) (LValue.string endian)
          (LValue.number size) = LuaResult.ret [LValue.userdata b]
      ∧ b.length = size / 8
      ∧ binaryToNumber numToString (LValue.string b) (LValue.string endian)
          (LValue.number size) = LuaResult.ret [LValue.number (toUint overflow size n)] := by
  obtain ⟨order, hend⟩ : ∃ order, getBinaryOrder (LValue.string endian) = Except.ok order := by
    rcases hendian with h | h <;> subst h
    · exact ⟨ByteOrder.LittleEndian, rfl⟩
    · exact ⟨ByteOrder.BigEndian, rfl⟩
  have hgs : getSize (LValue.number size) = Except.ok size := by
    simp [getSize, hsize]
  have hlen : (putUint order size (toUint overflow size n)).length = size / 8 := by
    cases order <;> simp [putUint, leBytes_length]
  refine ⟨putUint order size (toUint overflow size n), ?_, hlen, ?_⟩
  · simp [numberToBinary, hend, hgs]
  · have hpow : 256 ^ (size / 8) = 2 ^ size := by
      rcases hsize with h | h | h <;> subst h <;> norm_num
    have hlt := toUint_lt overflow size n
    have hv : toUint overflow size n < 2 ^ 53 := by
      by_cases hc : n < 2 ^ size
      · rw [toUint_of_lt overflow size n hc]; exact hn
      · have h64 : size ≠ 64 := by
          intro h; subst h; exact hc (lt_trans hn (by norm_num))
        have : (2:Nat) ^ size ≤ 2 ^ 32 := by
          rcases hsize with h | h | h <;> subst h <;> norm_num at h64 ⊢
        exact lt_of_lt_of_le hlt (le_trans this (by norm_num))
    simp only [binaryToNumber, checkString, hend, hgs, hlen, lt_irrefl, if_false,
      getUint_putUint, hpow, Nat.mod_eq_of_lt hlt, toFloat64_of_lt _ hv]

/-- Claim C6, as amended: for every size in 16, 32, 64, either byte order and
every non-negative integer `n` below `2 ^ 53`, `numberToBinary` returns a
userdata of `size / 8` bytes; `binaryToNumber` raises a type error on that
userdata, and on a string of the same bytes it returns the value of
`uintN(n)`: `n` whenever `n < 2 ^ size`, whatever the platform, and with
the conversion as compiled for amd64 `n mod 2 ^ size` for the sizes 32 and
64 and for the size 16 when `n < 2 ^ 31`. -/
theorem numberToBinary_roundtrip (overflow : Nat → Nat → Nat)
    (parseFloat : Bytes → Except Bytes Nat) (numToString : Nat → Bytes) (endian : Bytes)
    (size n : Nat) (hsize : size = 16 ∨ size = 32 ∨ size = 64)
    (hendian : endian = str "little" ∨ endian = str "big")
    (hn : n < 2 ^ 53) :
    (∃ b, numberToBinary overflow parseFloat (LValue.number n) (LValue.string endian)
          (LValue.number size) = LuaResult.ret [LValue.userdata b]
      ∧ b.length = size / 8
      ∧ binaryToNumber numToString (LValue.userdata b) (LValue.string endian)
          (LValue.number size) = LuaResult.raise (str "string expected, got userdata")
      ∧ binaryToNumber numToString (LValue.string b) (LValue.string endian)
          (LValue.number size) = LuaResult.ret [LValue.number (toUint overflow size n)]
      ∧ (n < 2 ^ size → binaryToNumber numToString (LValue.string b) (LValue.string endian)
          (LValue.number size) = LuaResult.ret [LValue.number n]))
    ∧ (∃ b, numberToBinary overflowViaInt32 parseFloat (LValue.number n)
          (LValue.string endian) (LValue.number size) = LuaResult.ret [LValue.userdata b]
      ∧ b.length = size / 8
      ∧ (size = 32 ∨ size = 64 ∨ n < 2 ^ 31 →
          binaryToNumber numToString (LValue.string b) (LValue.string endian)
            (LValue.number size) = LuaResult.ret [LValue.number (n % 2 ^ size)])) := by
  constructor
  · obtain ⟨b, h1, h2, h3⟩ := numberToBinary_bytes overflow parseFloat numToString endian
      size n hsize hendian hn
    refine ⟨b, h1, h2, rfl, h3, ?_⟩
    intro hc
    rw [h3, toUint_of_lt overflow size n hc]
  · obtain ⟨b, h1, h2, h3⟩ := numberToBinary_bytes overflowViaInt32 parseFloat numToString
      endian size n hsize hendian hn
    refine ⟨b, h1, h2, ?_⟩
    intro hwrap
    rw [h3, toUint_viaInt32 size n hsize hn hwrap]

theorem numberToBinary_roundtrip_witness :
    (∃ b, numberToBinary overflowViaInt32 (fun _ => Except.ok 0) (LValue.number 1000)
          (LValue.string (str "big")) (LValue.number 16) = LuaResult.ret [LValue.userdata b]
      ∧ b.length = 2
      ∧ binaryToNumber (fun _ => []) (LValue.string b) (LValue.string (str "big"))
          (LValue.number 16) = LuaResult.ret [LValue.number 1000])
    ∧ (∃ b, numberToBinary overflowViaInt32 (fun _ => Except.ok 0) (LValue.number 70000)
          (LValue.string (str "big")) (LValue.number 16) = LuaResult.ret [LValue.userdata b]
      ∧ b.length = 2
      ∧ binaryToNumber (fun _ => []) (LValue.string b) (LValue.string (str "big"))
          (LValue.number 16) = LuaResult.ret [LValue.number 4464]) := by
  obtain ⟨⟨b, h1, h2, _, _, h5⟩, _⟩ := numberToBinary_roundtrip overflowViaInt32
    (fun _ => Except.ok 0) (fun _ => []) (str "big") 16 1000 (by decide) (Or.inr rfl)
    (by decide)
  obtain ⟨_, ⟨b', k1, k2, k3⟩⟩ := numberToBinary_roundtrip overflowViaInt32
    (fun _ => Except.ok 0) (fun _ => []) (str "big") 16 70000 (by decide) (Or.inr rfl)
    (by decide)
  exact ⟨⟨b, h1, h2, h5 (by decide)⟩, ⟨b', k1, k2, k3 (Or.inr (Or.inr (by decide)))⟩⟩

/-- Claim C6 as stated fails. At its own witness, 1000 in 16 bits big endian,
`numberToBinary` returns the userdata of the bytes 3, 232, on which
`binaryToNumber` raises a type error instead of returning 1000. And on a
string of the bytes, with the conversion as compiled for amd64,
`n = 2 ^ 31 + 5` in 16 bits reads back as `0`, not as `n mod 2 ^ 16 = 5`. -/
theorem numberToBinary_wrap_counterexample :
    numberToBinary overflowViaInt32 (fun _ => Except.ok 0) (LValue.number 1000)
        (LValue.string (str "big")) (LValue.number 16)
        = LuaResult.ret [LValue.userdata [3, 232]]
      ∧ binaryToNumber (fun _ => []) (LValue.userdata [3, 232]) (LValue.string (str "big"))
        (LValue.number 16) = LuaResult.raise (str "string expected, got userdata")
      ∧ numberToBinary overflowViaInt32 (fun _ => Except.ok 0) (LValue.number 2147483653)
        (LValue.string (str "big")) (LValue.number 16) = LuaResult.ret [LValue.userdata [0, 0]]
      ∧ binaryToNumber (fun _ => []) (LValue.string [0, 0]) (LValue.string (str "big"))
        (LValue.number 16) = LuaResult.ret [LValue.number 0]
      ∧ 2147483653 % 2 ^ 16 = 5 ∧ 2147483653 < 2 ^ 53 := by
  decide

/-! ## Lemmas on `objx.Map` -/

theorem lookup_insert_self (m : Map) (k : Bytes) (v : JVal) :
    Map.lookup (Map.insert m k v) k = v := by
  induction m with
  | nil => simp [Map.insert, Map.lookup]
  | cons p rest ih =>
    obtain ⟨k', w⟩ := p
    by_cases h : k' = k
    · simp [Map.insert, Map.lookup, h]
    · simp [Map.insert, Map.lookup, h, ih]

theorem lookup_insert_ne (m : Map) (k k' : Bytes) (v : JVal) (hne : k ≠ k') :
    Map.lookup (Map.insert m k v) k' = Map.lookup m k' := by
  induction m with
  | nil => simp [Map.insert, Map.lookup, hne]
  | cons p rest ih =>
    obtain ⟨k0, w⟩ := p
    by_cases h : k0 = k
    · subst h
      simp [Map.insert, Map.lookup, hne]
    · by_cases h' : k0 = k'
      · subst h'
        simp [Map.insert, Map.lookup, h]
      · simp [Map.insert, Map.lookup, h, h', ih]

theorem accessGet_accessSet_self (segs : List Bytes) (hne : segs ≠ []) (m : Map) (v : JVal) :
    accessGet (JVal.obj (accessSet m segs v)) segs = v := by
  induction segs generalizing m with
  | nil => exact absurd rfl hne
  | cons k rest ih =>
    cases rest with
    | nil => simp [accessSet, accessGet, lookup_insert_self]
    | cons k2 rest2 =>
      simp only [accessSet, accessGet, lookup_insert_self]
      exact ih (by simp) _

theorem accessGet_accessSet_head_ne (k k' : Bytes) (rest rest' : List Bytes) (hne : k ≠ k')
    (m : Map) (v : JVal) :
    accessGet (JVal.obj (accessSet m (k :: rest) v)) (k' :: rest')
      = accessGet (JVal.obj m) (k' :: rest') := by
  cases rest with
  | nil => simp [accessSet, accessGet, lookup_insert_ne _ _ _ _ hne]
  | cons k2 rest2 => simp [accessSet, accessGet, lookup_insert_ne _ _ _ _ hne]

theorem splitDot_ne_nil (s : Bytes) : splitDot s ≠ [] := by
  induction s with
  | nil => simp [splitDot]
  | cons c cs ih =>
    unfold splitDot
    split
    · simp
    · split <;> simp

theorem Get_Set_self (m : Map) (selector : Bytes) (v : JVal) :
    Map.Get (Map.Set m selector v) selector = v :=
  accessGet_accessSet_self _ (splitDot_ne_nil selector) m v

theorem Get_id_Set_value (m : Map) (v : JVal) :
    Map.Get (Map.Set m (str "params.value") v) (str "id") = Map.Get m (str "id") := by
  have h1 : splitDot (str "params.value") = [str "params", str "value"] := by decide
  have h2 : splitDot (str "id") = [str "id"] := by decide
  unfold Map.Get Map.Set
  rw [h1, h2]
  exact accessGet_accessSet_head_ne _ _ _ _ (by decide) m v

/-! ## The jobs -/

/-- Claim C5 fails on the code: `spawnJobs` appends the handles to its own copy
of the receiver, so the `Service` returned by `New` tracks no job handle,
whatever `AddFunc` returned, and `undoAll` on it removes no job. With one
`schedule` config and the handle 1, `spawnJobs` ends with `[1]` in its copy
and `New` returns no error and an empty job list. -/
theorem New_tracks_no_job (env : Env) (expressions : List Bytes) (actions : List ActionConfig) :
    (New env expressions actions).1.jobs = []
      ∧ undoAll (New env expressions actions).1 = expressions.map Event.actionRemove
      ∧ (spawnJobs (testEnv [] []) ⟨[], []⟩
          [⟨str "a1", str "schedule", str "modbus", Slice.ofBytes (str "\x7b\x7d"), str "@every 1s"⟩]).jobs
          = [1]
      ∧ (New (testEnv [] []) []
          [⟨str "a1", str "schedule", str "modbus", Slice.ofBytes (str "\x7b\x7d"), str "@every 1s"⟩]).2.1
          = none := by
  refine ⟨rfl, rfl, by decide, by decide⟩

/-! ## The response pipeline -/

/-- Claim C9: `prepareResponse` returns the response bytes as they are, with
no effect at all (no action executed, no `Set`, nothing sent on the state
channel), when the request's `params._parent` is empty or missing, or the
response does not decode, or its `result` is missing or null, or
`result.notification` is true (a response decoding to a nil map has no
`result`). -/
theorem prepareResponse_passthrough (env : Env) (req : Map) (resp : Bytes)
    (h : (Map.Get req (str "params._parent")).Str = []
      ∨ (∃ e, env.unmarshal resp = Except.error e)
      ∨ (∃ d, env.unmarshal resp = Except.ok d
          ∧ ((Map.Get (d.getD []) (str "result")).IsNil = true
            ∨ (Map.Get (d.getD []) (str "result.notification")).Bool = true))) :
    prepareResponse env req resp = (resp, []) := by
  unfold prepareResponse
  rcases h with h | ⟨e, h⟩ | ⟨m, h, h' | h'⟩
  · simp [h]
  · simp only [h]; split <;> rfl
  · simp only [h, h']; split <;> simp
  · simp only [h, h']; split
    · rfl
    · split <;> simp

theorem prepareResponse_passthrough_witness :
    prepareResponse
        (testEnv [] [[(str "result", JVal.obj [(str "notification", JVal.bool true)])]])
        [(str "params", JVal.obj [(str "_type", JVal.str (str "read")),
          (str "_parent", JVal.str (str "edge.sensor.temp"))])]
        respNotifying
      = (respNotifying, []) :=
  prepareResponse_passthrough _ _ _
    (Or.inr (Or.inr ⟨some [(str "result", JVal.obj [(str "notification", JVal.bool true)])],
      by rfl, Or.inr (by rfl)⟩))

theorem Get_decodeIfStr (env : Env) (m : Map) (selector : Bytes) :
    Map.Get (decodeIfStr env m selector) selector = decodedValue env (Map.Get m selector) := by
  unfold decodeIfStr decodedValue
  cases hv : Map.Get m selector <;> simp [JVal.IsStr, JVal.Str, hv]
  case str s =>
    cases hd : env.b64decode s <;> simp [hv, Get_Set_self]

theorem prepareResponse_eq (env : Env) (req : Map) (resp : Bytes) (parsed : Map)
    (hparent : (Map.Get req (str "params._parent")).Str ≠ [])
    (hparse : env.unmarshal resp = Except.ok (some parsed))
    (hres : (Map.Get parsed (str "result")).IsNil = false)
    (hnot : (Map.Get parsed (str "result.notification")).Bool = false) :
    prepareResponse env req resp
      = ((env.marshal (JVal.obj (Map.Set (decodeIfStr env parsed (str "result")) (str "result")
            (readValue env (str "read." ++ (Map.Get req (str "params._parent")).Str)
              (decodeIfStr env parsed (str "result")) (str "result"))))).getD resp,
         [Event.execute (str "read." ++ (Map.Get req (str "params._parent")).Str)
            (Map.Get (decodeIfStr env parsed (str "result")) (str "result")),
          Event.stateSet (Map.Get req (str "params._parent")).Str
            (readValue env (str "read." ++ (Map.Get req (str "params._parent")).Str)
              (decodeIfStr env parsed (str "result")) (str "result"))
            (env.stateSet (Map.Get req (str "params._parent")).Str
              (readValue env (str "read." ++ (Map.Get req (str "params._parent")).Str)
                (decodeIfStr env parsed (str "result")) (str "result")))]
          ++ sendState env (Map.Get req (str "params._parent")).Str
            (readValue env (str "read." ++ (Map.Get req (str "params._parent")).Str)
              (decodeIfStr env parsed (str "result")) (str "result"))) := by
  unfold prepareResponse
  rw [if_neg hparent]
  simp only [hparse, Option.getD_some, hres, hnot, Bool.false_eq_true, if_false]
  cases env.marshal _ <;> rfl

theorem requestsListenerStep_eq (env : Env) (msg : Bytes) (request : Map)
    (hmsg : env.unmarshal msg = Except.ok (some request))
    (hval : (Map.Get request (str "params.value")).IsNil = false)
    (hnparent : (Map.Get request (str "params.__request_params._parent")).Str ≠ []) :
    requestsListenerStep env msg
      = [Event.execute (str "read." ++ (Map.Get request
              (str "params.__request_params._parent")).Str)
            (Map.Get (decodeIfStr env request (str "params.value")) (str "params.value")),
          Event.stateSet (Map.Get request (str "params.__request_params._parent")).Str
            (readValue env (str "read." ++ (Map.Get request
                (str "params.__request_params._parent")).Str)
              (decodeIfStr env request (str "params.value")) (str "params.value"))
            (env.stateSet (Map.Get request (str "params.__request_params._parent")).Str
              (readValue env (str "read." ++ (Map.Get request
                  (str "params.__request_params._parent")).Str)
                (decodeIfStr env request (str "params.value")) (str "params.value")))]
        ++ (if env.stateSet (Map.Get request (str "params.__request_params._parent")).Str
              (readValue env (str "read." ++ (Map.Get request
                  (str "params.__request_params._parent")).Str)
                (decodeIfStr env request (str "params.value")) (str "params.value"))
            then []
            else sendState env (Map.Get request (str "params.__request_params._parent")).Str
              (readValue env (str "read." ++ (Map.Get request
                  (str "params.__request_params._parent")).Str)
                (decodeIfStr env request (str "params.value")) (str "params.value"))) := by
  unfold requestsListenerStep
  simp only [hmsg, Option.getD_some, hval, Bool.false_eq_true, if_false]
  rw [if_neg hnparent]
  split <;> simp

/-- Claim C7: past the pass-through checks `prepareResponse` executes the read
action, calls `Set` and then sends the state update, exactly one message on
the state channel, whatever `Set` returned (an error included), and returns
the rewritten response when it marshals; past its validation checks an
iteration of `requestsListener` sends nothing when `Set` returned an error
and the state update, exactly one message, when it succeeded. -/
theorem state_set_failure_asymmetry (env : Env) (req : Map) (resp : Bytes) (parsed : Map)
    (msg : Bytes) (request : Map)
    (hparent : (Map.Get req (str "params._parent")).Str ≠ [])
    (hparse : env.unmarshal resp = Except.ok (some parsed))
    (hres : (Map.Get parsed (str "result")).IsNil = false)
    (hnot : (Map.Get parsed (str "result.notification")).Bool = false)
    (hmsg : env.unmarshal msg = Except.ok (some request))
    (hval : (Map.Get request (str "params.value")).IsNil = false)
    (hnparent : (Map.Get request (str "params.__request_params._parent")).Str ≠ []) :
    (∃ arg res, (prepareResponse env req resp).2
          = [Event.execute (str "read." ++ (Map.Get req (str "params._parent")).Str) arg,
             Event.stateSet (Map.Get req (str "params._parent")).Str res
               (env.stateSet (Map.Get req (str "params._parent")).Str res)]
            ++ sendState env (Map.Get req (str "params._parent")).Str res
        ∧ sends (prepareResponse env req resp).2 = 1
        ∧ ∀ out, env.marshal (JVal.obj (Map.Set (decodeIfStr env parsed (str "result"))
              (str "result") res)) = some out → (prepareResponse env req resp).1 = out)
      ∧ (∃ arg res, requestsListenerStep env msg
          = [Event.execute (str "read." ++ (Map.Get request
                (str "params.__request_params._parent")).Str) arg,
             Event.stateSet (Map.Get request (str "params.__request_params._parent")).Str res
               (env.stateSet (Map.Get request (str "params.__request_params._parent")).Str res)]
            ++ (if env.stateSet (Map.Get request (str "params.__request_params._parent")).Str res
                then []
                else sendState env
                  (Map.Get request (str "params.__request_params._parent")).Str res)
        ∧ sends (requestsListenerStep env msg)
          = if env.stateSet (Map.Get request (str "params.__request_params._parent")).Str res
            then 0 else 1) := by
  constructor
  · refine ⟨_, _, congrArg Prod.snd
      (prepareResponse_eq env req resp parsed hparent hparse hres hnot), ?_, ?_⟩
    · rw [prepareResponse_eq env req resp parsed hparent hparse hres hnot]
      rfl
    · intro out hout
      rw [prepareResponse_eq env req resp parsed hparent hparse hres hnot]
      simp [hout]
  · refine ⟨_, _, requestsListenerStep_eq env msg request hmsg hval hnparent, ?_⟩
    rw [requestsListenerStep_eq env msg request hmsg hval hnparent]
    split <;> rfl

theorem state_set_failure_asymmetry_witness :
    sends (prepareResponse (failingStoreEnv sampleConfig sampleDocs) sampleReadReq
        respResult).2 = 1
      ∧ (prepareResponse (failingStoreEnv sampleConfig sampleDocs) sampleReadReq
        respResult).1 = respResult
      ∧ sends (requestsListenerStep (failingStoreEnv sampleConfig sampleDocs)
        (encode (JVal.obj sampleNotification))) = 0 := by
  have h := state_set_failure_asymmetry (failingStoreEnv sampleConfig sampleDocs) sampleReadReq
    respResult sampleResult (encode (JVal.obj sampleNotification))
    sampleNotification (by decide) (by rfl) (by rfl) (by rfl) (by rfl) (by rfl) (by decide)
  obtain ⟨⟨_, _, _, h1, _⟩, ⟨_, _, _, h3⟩⟩ := h
  exact ⟨h1, by rfl, h3⟩

theorem str_edge : str "edge." = [101, 100, 103, 101, 46] := by decide

theorem trimPrefix_edge (p : Bytes) : trimPrefix (str "edge." ++ p) (str "edge.") = p := by
  rw [str_edge]
  simp [trimPrefix, hasPrefix]

theorem sendState_edge (env : Env) (p : Bytes) (v : JVal) :
    sendState env (str "edge." ++ p) v
      = [Event.stateSend ((env.marshal (JVal.obj (Map.Set [] p v))).getD [])] := by
  unfold sendState
  rw [trimPrefix_edge]

/-- Claim C4, as amended: for a read request whose parent is `edge.<p>` and a
response whose `result` is a non-null, non-notification value that the read
action leaves alone, `prepareResponse` calls `Set` with the whole parent
`edge.<p>` as key (the prefix is not stripped) and the value after the
base64 step, and publishes the nested object built from the stripped key
`<p>` and that value. -/
theorem prepareResponse_state_sync (env : Env) (req : Map) (resp : Bytes) (parsed : Map)
    (p : Bytes)
    (hparent : (Map.Get req (str "params._parent")).Str = str "edge." ++ p)
    (hparse : env.unmarshal resp = Except.ok (some parsed))
    (hres : (Map.Get parsed (str "result")).IsNil = false)
    (hnot : (Map.Get parsed (str "result.notification")).Bool = false)
    (hact : (env.execute (str "read." ++ (str "edge." ++ p))
              (decodedValue env (Map.Get parsed (str "result")))).1 = JVal.null
          ∨ (env.execute (str "read." ++ (str "edge." ++ p))
              (decodedValue env (Map.Get parsed (str "result")))).1
            = decodedValue env (Map.Get parsed (str "result"))) :
    (prepareResponse env req resp).2
      = [Event.execute (str "read." ++ (str "edge." ++ p))
            (decodedValue env (Map.Get parsed (str "result"))),
         Event.stateSet (str "edge." ++ p) (decodedValue env (Map.Get parsed (str "result")))
            (env.stateSet (str "edge." ++ p) (decodedValue env (Map.Get parsed (str "result")))),
         Event.stateSend ((env.marshal (JVal.obj (Map.Set [] p
            (decodedValue env (Map.Get parsed (str "result")))))).getD [])] := by
  have hne : (Map.Get req (str "params._parent")).Str ≠ [] := by
    rw [hparent]; simp [str]
  have hrv : readValue env (str "read." ++ (str "edge." ++ p))
      (decodeIfStr env parsed (str "result")) (str "result")
      = decodedValue env (Map.Get parsed (str "result")) := by
    unfold readValue
    rw [Get_decodeIfStr]
    rcases hact with h | h
    · rw [h]; rfl
    · rw [h]; simp
  rw [prepareResponse_eq env req resp parsed hne hparse hres hnot, hparent, hrv,
    Get_decodeIfStr, sendState_edge]
  rfl

theorem prepareResponse_state_sync_witness :
    (prepareResponse (testEnv sampleConfig sampleDocs) sampleReadReq respResult).2
      = [Event.execute (str "read.edge.sensor.temp") (JVal.num 25),
         Event.stateSet (str "edge.sensor.temp") (JVal.num 25) false,
         Event.stateSend pubSensorTemp] :=
  prepareResponse_state_sync (testEnv sampleConfig sampleDocs) sampleReadReq
    respResult sampleResult (str "sensor.temp") (by rfl) (by rfl) (by rfl) (by rfl)
    (Or.inl (by rfl))

/-- Claim C4 as stated fails at its own witness: for `_parent` equal to
`edge.sensor.temp` and the response `{"result":25}` the only `Set` is made
with the key `edge.sensor.temp`, not `sensor.temp`; and for the response
`{"result":"MjU="}` the value handed to `Set` is the decoded `[]byte`, not
the string. -/
theorem prepareResponse_set_key_counterexample :
    stateSets (prepareResponse (testEnv sampleConfig sampleDocs) sampleReadReq
        respResult).2
      = [(str "edge.sensor.temp", JVal.num 25)]
    ∧ str "edge.sensor.temp" ≠ str "sensor.temp"
    ∧ stateSets (prepareResponse (decodingEnv sampleConfig sampleDocs) sampleReadReq
        (encode (JVal.obj sampleEncoded))).2
      = [(str "edge.sensor.temp", JVal.bytes (str "25"))]
    ∧ JVal.bytes (str "25") ≠ JVal.str (str "MjU=") := by
  refine ⟨by rfl, by decide, by rfl, ?_⟩
  intro h
  cases h

/-! ## The request pipeline -/

theorem writeAction_id (env : Env) (data : Map) (changed : Bool) :
    Map.Get (writeAction env data changed).1 (str "id") = Map.Get data (str "id") := by
  unfold writeAction
  by_cases h1 : (Map.Get data (str "params._type")).Str = str "write"
  · simp only [h1, if_true]
    by_cases h2 : (Map.Get data (str "params._parent")).Str ≠ []
    · rw [if_pos h2]
      cases h3 : (env.execute (str "write." ++ (Map.Get data (str "params._parent")).Str)
          (Map.Get data (str "params.value"))).2
      · simp only [Bool.false_eq_true, if_false]
        exact Get_id_Set_value _ _
      · simp only [if_true]
    · rw [if_neg h2]
  · simp only [h1, if_false]

theorem rpcCalls_writeAction (env : Env) (data : Map) (changed : Bool) :
    rpcCalls (writeAction env data changed).2.2 = [] := by
  unfold writeAction
  by_cases h1 : (Map.Get data (str "params._type")).Str = str "write"
  · simp only [h1, if_true]
    by_cases h2 : (Map.Get data (str "params._parent")).Str ≠ []
    · rw [if_pos h2]
      cases h3 : (env.execute (str "write." ++ (Map.Get data (str "params._parent")).Str)
          (Map.Get data (str "params.value"))).2
      · simp only [Bool.false_eq_true, if_false]
        rfl
      · simp only [if_true]
        rfl
    · rw [if_neg h2]
      rfl
  · simp only [h1, if_false]
    rfl

theorem rpcCalls_prepareResponse (env : Env) (req : Map) (resp : Bytes) :
    rpcCalls (prepareResponse env req resp).2 = [] := by
  unfold prepareResponse
  by_cases hp : (Map.Get req (str "params._parent")).Str = []
  · rw [if_pos hp]; rfl
  · rw [if_neg hp]
    cases hu : env.unmarshal resp with
    | error e => rfl
    | ok d =>
      simp only
      by_cases h1 : (Map.Get (d.getD []) (str "result")).IsNil = true
      · rw [if_pos h1]; rfl
      · rw [if_neg h1]
        by_cases h2 : (Map.Get (d.getD []) (str "result.notification")).Bool = true
        · rw [if_pos h2]; rfl
        · rw [if_neg h2]
          cases env.marshal _ <;> rfl

theorem rpcCalls_append (a b : List Event) : rpcCalls (a ++ b) = rpcCalls a ++ rpcCalls b := by
  unfold rpcCalls
  exact List.filterMap_append _ _ _

/-- Claim C3, as amended: when `prepareRequest` succeeds, `Call` makes exactly
one `rpc.Call`, with the id of the decoded envelope, which is the payload's
own id when that is a string (the empty string included) and the generated
one when the id is absent or null; with a generator of non-empty ids, the
id dispatched is empty exactly when the payload's own id is the empty
string. -/
theorem Call_dispatches_envelope_id (env : Env) (fuel : Nat) (name : Bytes) (payload : Slice)
    (buf : Bytes) (filled : FillResult) (d : Option Map) (ev : List Event) (out : Bytes)
    (data : Map)
    (hfill : fillTemplate env.config env.grow fuel payload = some (buf, filled))
    (herr : filled.err = none)
    (hparse : env.unmarshal (filled.res.getD []) = Except.ok d)
    (hprep : prepareRequest env fuel payload = some ⟨buf, ev, Prepared.ok out data⟩)
    (hnew : env.newID ≠ []) :
    ∃ parsed c id, d = some parsed
      ∧ Call env fuel name payload = some c
      ∧ rpcCalls c.events = [(name, id, out)]
      ∧ Map.Get data (str "id") = JVal.str id
      ∧ (∀ s, Map.Get parsed (str "id") = JVal.str s → id = s)
      ∧ (Map.Get parsed (str "id") = JVal.null → id = env.newID)
      ∧ ((∃ s, Map.Get parsed (str "id") = JVal.str s) ∨ Map.Get parsed (str "id") = JVal.null)
      ∧ (id = [] ↔ Map.Get parsed (str "id") = JVal.str []) := by
  have h := hprep
  unfold prepareRequest at h
  simp only [hfill, herr, hparse] at h
  cases d with
  | none => simp at h
  | some parsed =>
    simp only at h
    have hid : ∃ id, Map.Get data (str "id") = JVal.str id
        ∧ rpcCalls ev = []
        ∧ (∀ s, Map.Get parsed (str "id") = JVal.str s → id = s)
        ∧ (Map.Get parsed (str "id") = JVal.null → id = env.newID)
        ∧ ((∃ s, Map.Get parsed (str "id") = JVal.str s)
            ∨ Map.Get parsed (str "id") = JVal.null) := by
      cases hv : Map.Get parsed (str "id") with
      | null =>
        simp only [hv, JVal.IsNil, JVal.IsStr] at h
        simp only [Bool.not_true, Bool.false_and, Bool.false_eq_true, if_false, if_true] at h
        have hd : data = (writeAction env (Map.Set parsed (str "id")
              (JVal.str env.newID)) true).1
            ∧ ev = (writeAction env (Map.Set parsed (str "id")
              (JVal.str env.newID)) true).2.2 := by
          split at h
          · split at h
            · simp at h
            · simp only [Option.some.injEq, PrepareOut.mk.injEq, Prepared.ok.injEq] at h
              exact ⟨h.2.2.2.symm, h.2.1.symm⟩
          · simp only [Option.some.injEq, PrepareOut.mk.injEq, Prepared.ok.injEq] at h
            exact ⟨h.2.2.2.symm, h.2.1.symm⟩
        refine ⟨env.newID, ?_, ?_, ?_, fun _ => rfl, Or.inr rfl⟩
        · rw [hd.1, writeAction_id, Get_Set_self]
        · rw [hd.2, rpcCalls_writeAction]
        · intro s hs; cases hs
      | str s =>
        simp only [hv, JVal.IsNil, JVal.IsStr] at h
        simp only [Bool.not_true, Bool.not_false, Bool.and_false, Bool.false_eq_true,
          if_false] at h
        have hd : data = (writeAction env parsed filled.changed).1
            ∧ ev = (writeAction env parsed filled.changed).2.2 := by
          split at h
          · split at h
            · simp at h
            · simp only [Option.some.injEq, PrepareOut.mk.injEq, Prepared.ok.injEq] at h
              exact ⟨h.2.2.2.symm, h.2.1.symm⟩
          · simp only [Option.some.injEq, PrepareOut.mk.injEq, Prepared.ok.injEq] at h
            exact ⟨h.2.2.2.symm, h.2.1.symm⟩
        refine ⟨s, ?_, ?_, ?_, ?_, Or.inl ⟨s, rfl⟩⟩
        · rw [hd.1, writeAction_id, hv]
        · rw [hd.2, rpcCalls_writeAction]
        · intro s' hs; cases hs; rfl
        · intro hs; cases hs
      | bool b => simp [hv, JVal.IsNil, JVal.IsStr] at h
      | num n => simp [hv, JVal.IsNil, JVal.IsStr] at h
      | bytes b => simp [hv, JVal.IsNil, JVal.IsStr] at h
      | arr xs => simp [hv, JVal.IsNil, JVal.IsStr] at h
      | obj kvs => simp [hv, JVal.IsNil, JVal.IsStr] at h
    obtain ⟨id, h1, hev, h2, h3, h4⟩ := hid
    have hcall : ∃ c, Call env fuel name payload = some c
        ∧ rpcCalls c.events = [(name, id, out)] := by
      unfold Call
      simp only [hprep, h1, JVal.Str]
      cases env.rpcCall name id out with
      | none =>
        refine ⟨_, rfl, ?_⟩
        simp only [rpcCalls_append, hev]
        rfl
      | some msg =>
        simp only
        split
        · refine ⟨_, rfl, ?_⟩
          simp only [rpcCalls_append, hev, rpcCalls_prepareResponse]
          rfl
        · refine ⟨_, rfl, ?_⟩
          simp only [rpcCalls_append, hev]
          rfl
    obtain ⟨c, hc1, hc2⟩ := hcall
    refine ⟨parsed, c, id, rfl, hc1, hc2, h1, h2, h3, h4, ?_⟩
    constructor
    · intro hempty
      rcases h4 with ⟨s, hs⟩ | hnull
      · rw [hs, ← h2 s hs, hempty]
      · exact absurd ((h3 hnull).symm.trans hempty) hnew
    · intro hs
      exact h2 [] hs

theorem Call_dispatches_envelope_id_witness :
    ∃ c, Call (testEnv sampleConfig sampleDocs) 5 (str "modbus")
          (Slice.ofBytes tplSensor) = some c
      ∧ rpcCalls c.events
        = [(str "modbus", str "id-1", sentSensor)] := by
  have h := Call_dispatches_envelope_id (testEnv sampleConfig sampleDocs) 5 (str "modbus")
    (Slice.ofBytes tplSensor)
    bufSensor
    ⟨some outSensor, true, none⟩ (some [(str "x", JVal.str (str "42"))]) []
    sentSensor
    [(str "x", JVal.str (str "42")), (str "id", JVal.str (str "id-1"))]
    (by rfl) (by rfl) (by rfl) (by rfl) (by decide)
  obtain ⟨parsed, c, id, hd, hc, hr, _, _, h3, _, _⟩ := h
  cases hd
  have hid : id = str "id-1" := h3 rfl
  subst hid
  exact ⟨c, hc, hr⟩

/-- Claim C3 as stated fails: the payload `{"id":""}` has an id, passes
`prepareRequest`, and is dispatched with the empty id. -/
theorem Call_empty_id_counterexample :
    (Call (testEnv sampleConfig sampleDocs) 5 (str "modbus")
        (Slice.ofBytes reqEmptyId)).map (fun c => c.events)
      = some [Event.rpcCall (str "modbus") [] reqEmptyId] := by
  rfl

/-- Claim C1 fails on the code: with room in the buffer the grow path writes
the value over the first bytes of the suffix before the suffix is copied.
For `{"x":"{{a}}","y":1}` and `a = "123456789"` the result is
`{"x":"1234567896789":1}` and not `{"x":"123456789","y":1}`. -/
theorem fillTemplate_grow_overwrites_suffix :
    (fillTemplate sampleConfig (fun _ _ => 0) 5
        (Slice.ofBytes tplGrow)).map (fun r => r.2)
      = some ⟨some outGrow, true, none⟩
    ∧ resolve sampleConfig (str "\x7b\x7ba\x7d\x7d") = str "123456789"
    ∧ outGrow ≠ str "\x7b\"x\":\"" ++ str "123456789" ++ str "\",\"y\":1\x7d"
    ∧ index (str "\x7b\"x\":\"" ++ str "123456789" ++ str "\",\"y\":1\x7d") (str "\x7b\x7b") = none := by
  decide

/-- Claim C8 fails on the code: the payload `{"a":"{{x}}{{"}` holds a `{{` with
no `}}` after it, yet with `x = "1234567"` the grow path writes `67` over
that `{{`; `fillTemplate` returns `{"a":"123456767"}` without error and
`Call` dispatches the request. -/
theorem Call_dispatches_unterminated_marker :
    (fillTemplate sampleConfig (fun _ _ => 0) 5
        (Slice.ofBytes tplOpen)).map (fun r => r.2)
      = some ⟨some outOpen, true, none⟩
    ∧ (Call (testEnv sampleConfig sampleDocs) 5 (str "modbus")
        (Slice.ofBytes tplOpen)).map (fun c => c.events)
      = some [Event.rpcCall (str "modbus") (str "id-1")
          sentOpen] := by
  constructor
  · decide
  · rfl

/-- Claim C10 fails on the code: `fillTemplate` writes into the caller's
buffer. After the first tick of a job with the payload
`{"x":"{{ object.config.sensor_id }}"}` the buffer of the action config
reads `{"x":"42"}bject.config.sensor_id }}"}`; the first tick dispatches
`{"x":"42",...}`, the second finds no marker, fails to decode the buffer
and dispatches nothing. -/
theorem fillTemplate_writes_caller_buffer :
    (fillTemplate sampleConfig (fun _ _ => 0) 5 sampleJob.Payload).map (fun r => r.1)
      = some bufSensor
    ∧ (fillTemplate sampleConfig (fun _ _ => 0) 5 sampleJob.Payload).map (fun r => r.2)
      = some ⟨some outSensor, true, none⟩
    ∧ (fillTemplate sampleConfig (fun _ _ => 0) 5
        ⟨bufSensor, sampleJob.Payload.len⟩).map
          (fun r => r.2)
      = some ⟨some bufSensor, false, none⟩
    ∧ (buildJobFn (testEnv sampleConfig sampleDocs) 5 sampleJob sampleJob.Payload.arr).map
          (fun c => (c.buf, c.events))
      = some (bufSensor,
          [Event.rpcCall (str "modbus") (str "id-1") sentSensor])
    ∧ (buildJobFn (testEnv sampleConfig sampleDocs) 5 sampleJob
          bufSensor).map (fun c => c.events)
      = some [] := by
  refine ⟨by decide, by decide, by decide, by rfl, by rfl⟩

/-! ## What the request pipeline rejects -/

theorem fillTemplate_unterminated (config : Map) (grow : Nat → Nat → Nat) (fuel : Nat)
    (data : Slice) (b : Nat)
    (hopen : index data.bytes (str "\x7b\x7b") = some b)
    (hclose : index (data.bytes.drop b) (str "\x7d\x7d") = none) :
    fillTemplate config grow (fuel + 1) data
      = some (data.arr, ⟨none, false, some (str "begin found but end not found")⟩) := by
  rw [fillTemplate]
  simp only [hopen, hclose]

theorem Call_template_error (env : Env) (fuel : Nat) (name : Bytes) (payload : Slice)
    (buf : Bytes) (filled : FillResult) (msg : Bytes)
    (hfill : fillTemplate env.config env.grow fuel payload = some (buf, filled))
    (herr : filled.err = some msg) :
    Call env fuel name payload
      = some ⟨buf, [], some (env.buildErrResp []
          (errUnmarshal.AddData (str "err") (JVal.str msg)))⟩ := by
  unfold Call prepareRequest
  simp only [hfill, herr]

theorem Call_decode_error (env : Env) (fuel : Nat) (name : Bytes) (payload : Slice)
    (buf : Bytes) (filled : FillResult) (msg : Bytes)
    (hfill : fillTemplate env.config env.grow fuel payload = some (buf, filled))
    (herr : filled.err = none)
    (hparse : env.unmarshal (filled.res.getD []) = Except.error msg) :
    Call env fuel name payload
      = some ⟨buf, [], some (env.buildErrResp []
          (errUnmarshal.AddData (str "err") (JVal.str msg)))⟩ := by
  unfold Call prepareRequest
  simp only [hfill, herr, hparse]

theorem Call_nil_map_panics (env : Env) (fuel : Nat) (name : Bytes) (payload : Slice)
    (buf : Bytes) (filled : FillResult)
    (hfill : fillTemplate env.config env.grow fuel payload = some (buf, filled))
    (herr : filled.err = none)
    (hparse : env.unmarshal (filled.res.getD []) = Except.ok none) :
    Call env fuel name payload = some ⟨buf, [], none⟩ := by
  unfold Call prepareRequest
  simp only [hfill, herr, hparse]

theorem Call_null_payload_panics :
    (Call (testEnv sampleConfig sampleDocs) 5 (str "modbus")
        (Slice.ofBytes (str "null"))).map (fun c => (c.events, c.resp))
      = some ([], none) := by
  rfl

theorem Call_bad_id_type (env : Env) (fuel : Nat) (name : Bytes) (payload : Slice)
    (buf : Bytes) (filled : FillResult) (parsed : Map)
    (hfill : fillTemplate env.config env.grow fuel payload = some (buf, filled))
    (herr : filled.err = none)
    (hparse : env.unmarshal (filled.res.getD []) = Except.ok (some parsed))
    (hnil : (Map.Get parsed (str "id")).IsNil = false)
    (hstr : (Map.Get parsed (str "id")).IsStr = false) :
    Call env fuel name payload
      = some ⟨buf, [], some (env.buildErrResp []
          (errBadIDType.AddData (str "current_id") (Map.Get parsed (str "id"))))⟩ := by
  unfold Call prepareRequest
  simp only [hfill, herr, hparse, hnil, hstr, Bool.not_false, Bool.and_self, if_true]

/-! ## Lemmas on the template engine -/

theorem hasPrefix_length (a sep : Bytes) (h : hasPrefix a sep = true) :
    sep.length ≤ a.length := by
  induction a generalizing sep with
  | nil =>
    cases sep with
    | nil => simp
    | cons d ds => simp [hasPrefix] at h
  | cons c cs ih =>
    cases sep with
    | nil => simp
    | cons d ds =>
      simp only [hasPrefix, Bool.and_eq_true] at h
      have := ih ds h.2
      simp only [List.length_cons]
      omega

theorem hasPrefix_append (a b sep : Bytes) (h : sep.length ≤ a.length) :
    hasPrefix (a ++ b) sep = hasPrefix a sep := by
  induction a generalizing sep with
  | nil =>
    cases sep with
    | nil => cases b <;> rfl
    | cons d ds => simp at h
  | cons c cs ih =>
    cases sep with
    | nil => rfl
    | cons d ds =>
      simp only [List.length_cons, Nat.add_le_add_iff_right] at h
      have := ih ds h
      show (c == d && hasPrefix (cs ++ b) ds) = (c == d && hasPrefix cs ds)
      rw [this]

theorem index_bound (a sep : Bytes) (k : Nat) (h : index a sep = some k) :
    k + sep.length ≤ a.length := by
  induction a generalizing k with
  | nil =>
    unfold index at h
    split at h
    · rename_i hp
      have := hasPrefix_length _ _ hp
      simp only [Option.some.injEq] at h
      omega
    · cases h
  | cons c cs ih =>
    unfold index at h
    split at h
    · rename_i hp
      have := hasPrefix_length _ _ hp
      simp only [Option.some.injEq] at h
      omega
    · cases hj : index cs sep with
      | none => simp [hj] at h
      | some j =>
        simp only [hj, Option.map_some', Option.some.injEq] at h
        have := ih j hj
        simp only [List.length_cons]
        omega

theorem index_append (a b sep : Bytes) (k : Nat) (h : index a sep = some k) :
    index (a ++ b) sep = some k := by
  induction a generalizing k with
  | nil =>
    unfold index at h
    split at h
    · rename_i hp
      have hl := hasPrefix_length _ _ hp
      have hs : sep = [] := by
        cases sep with
        | nil => rfl
        | cons d ds => simp at hl
      subst hs
      simp only [Option.some.injEq] at h
      subst h
      cases b <;> rfl
    · cases h
  | cons c cs ih =>
    have hb := index_bound _ _ _ h
    unfold index at h
    simp only [List.cons_append]
    unfold index
    have hpre : hasPrefix (c :: (cs ++ b)) sep = hasPrefix (c :: cs) sep := by
      have := hasPrefix_append (c :: cs) b sep (by omega)
      simpa using this
    rw [hpre]
    split at h
    · rename_i hp
      simp only [hp, if_true]
      exact h
    · rename_i hp
      simp only [hp, if_false]
      cases hj : index cs sep with
      | none => simp [hj] at h
      | some j =>
        simp only [hj, Option.map_some', Option.some.injEq] at h
        rw [ih j hj]
        simp [h]

theorem copyAt_exact (a b c src : Bytes) (n : Nat) (hlen : src.length = b.length)
    (hn : src.length ≤ n) :
    copyAt (a ++ b ++ c) a.length n src = a ++ src ++ c := by
  unfold copyAt
  have h1 : src.take n = src := List.take_of_length_le hn
  rw [h1, List.append_assoc a b c, List.take_left' rfl, hlen]
  have h2 : (a ++ (b ++ c)).drop (a.length + b.length) = c := by
    rw [← List.append_assoc, ← List.length_append]
    exact List.drop_left' rfl
  rw [h2]

theorem fillTemplate_shrink_step (config : Map) (grow : Nat → Nat → Nat) (fuel : Nat)
    (pre m rest junk : Bytes) (e : Nat)
    (hopen : index (pre ++ m ++ rest) (str "\x7b\x7b") = some pre.length)
    (hclose : index m (str "\x7d\x7d") = some e) (hend : e + 2 = m.length)
    (hshort : (resolve config m).length ≤ m.length) :
    ∃ junk', fillTemplate config grow (fuel + 1)
        ⟨pre ++ m ++ rest ++ junk, (pre ++ m ++ rest).length⟩
      = match fillTemplate config grow fuel
          ⟨pre ++ resolve config m ++ rest ++ junk', (pre ++ resolve config m ++ rest).length⟩ with
        | none => none
        | some (arr, r) => some (arr, ⟨r.res, true, r.err⟩) := by
  refine ⟨((m.drop (resolve config m).length) ++ rest ++ junk).drop rest.length, ?_⟩
  rw [fillTemplate]
  have hbytes : Slice.bytes ⟨pre ++ m ++ rest ++ junk, (pre ++ m ++ rest).length⟩
      = pre ++ m ++ rest := List.take_left' rfl
  have hdrop : (pre ++ m ++ rest).drop pre.length = m ++ rest := by
    rw [List.append_assoc]; exact List.drop_left' rfl
  have hname : ((pre ++ m ++ rest).take (pre.length + e + 2)).drop pre.length = m := by
    have : pre.length + e + 2 = (pre ++ m).length := by simp; omega
    rw [this, List.take_left' rfl]
    exact List.drop_left' rfl
  simp only [hbytes, hopen, hdrop, index_append m rest _ e hclose, hname, if_pos hshort]
  have hsplit : pre ++ m ++ rest ++ junk
      = pre ++ m.take (resolve config m).length
        ++ (m.drop (resolve config m).length ++ rest ++ junk) := by
    simp only [List.append_assoc, List.append_cancel_left_eq]
    rw [← List.append_assoc (m.take _), List.take_append_drop]
  have ha1 : copyAt (pre ++ m ++ rest ++ junk) pre.length
      ((pre ++ m ++ rest).length - pre.length) (resolve config m)
      = pre ++ resolve config m ++ (m.drop (resolve config m).length ++ rest ++ junk) := by
    rw [hsplit]
    apply copyAt_exact
    · rw [List.length_take]; omega
    · simp only [List.length_append]; omega
  have htake : (pre ++ resolve config m
        ++ (m.drop (resolve config m).length ++ rest ++ junk)).take (pre ++ m ++ rest).length
      = pre ++ resolve config m ++ m.drop (resolve config m).length ++ rest := by
    have : pre ++ resolve config m ++ (m.drop (resolve config m).length ++ rest ++ junk)
        = (pre ++ resolve config m ++ m.drop (resolve config m).length ++ rest) ++ junk := by
      simp only [List.append_assoc]
    rw [this]
    apply List.take_left'
    simp only [List.length_append, List.length_drop]; omega
  have hafter : (pre ++ resolve config m ++ m.drop (resolve config m).length ++ rest).drop
      (pre.length + e + 2) = rest := by
    apply List.drop_left'
    simp only [List.length_append, List.length_drop]; omega
  have ha2 : copyAt (pre ++ resolve config m
        ++ (m.drop (resolve config m).length ++ rest ++ junk))
      (pre.length + (resolve config m).length)
      ((pre ++ m ++ rest).length - (pre.length + (resolve config m).length)) rest
      = pre ++ resolve config m ++ rest
        ++ (m.drop (resolve config m).length ++ rest ++ junk).drop rest.length := by
    have hz : pre ++ resolve config m ++ (m.drop (resolve config m).length ++ rest ++ junk)
        = (pre ++ resolve config m)
          ++ (m.drop (resolve config m).length ++ rest ++ junk).take rest.length
          ++ (m.drop (resolve config m).length ++ rest ++ junk).drop rest.length := by
      rw [List.append_assoc (pre ++ resolve config m), List.take_append_drop]
    rw [hz, ← List.length_append]
    apply copyAt_exact
    · rw [List.length_take]
      simp only [List.length_append, List.length_drop]; omega
    · simp only [List.length_append]; omega
  have hlen : (pre ++ m ++ rest).length - (m.length - (resolve config m).length)
      = (pre ++ resolve config m ++ rest).length := by
    simp only [List.length_append]; omega
  rw [ha1, htake, hafter, ha2, hlen]

theorem fillTemplate_shrink_aux (config : Map) (grow : Nat → Nat → Nat)
    (inF outF : Bytes → Bytes) :
    ∀ (pieces : List (Bytes × Bytes)) (acc tail junk : Bytes) (fuel : Nat),
      (∀ p ∈ pieces, IsMarker (inF p.2) ∧ resolve config (inF p.2) = outF p.2
        ∧ (outF p.2).length ≤ (inF p.2).length) →
      ScanMeets inF outF acc pieces tail → pieces.length < fuel →
      (fillTemplate config grow fuel ⟨acc ++ joinPieces inF pieces tail ++ junk,
          (acc ++ joinPieces inF pieces tail).length⟩).map Prod.snd
        = some ⟨some (acc ++ joinPieces outF pieces tail), !pieces.isEmpty, none⟩ := by
  intro pieces
  induction pieces with
  | nil =>
    intro acc tail junk fuel _ hscan hfuel
    obtain ⟨f, rfl⟩ : ∃ f, fuel = f + 1 := ⟨fuel - 1, by simp at hfuel; omega⟩
    have hbytes : Slice.bytes ⟨acc ++ tail ++ junk, (acc ++ tail).length⟩ = acc ++ tail :=
      List.take_left' rfl
    have hnone : index (acc ++ tail) (str "\x7b\x7b") = none := hscan
    rw [joinPieces, joinPieces, fillTemplate]
    simp only [hbytes, hnone]
    rfl
  | cons p ps ih =>
    intro acc tail junk fuel hmark hscan hfuel
    obtain ⟨t, x⟩ := p
    obtain ⟨f, rfl⟩ : ∃ f, fuel = f + 1 := ⟨fuel - 1, by simp at hfuel; omega⟩
    obtain ⟨⟨_, e, hclose, hend⟩, hres, hshort⟩ := hmark (t, x) (List.mem_cons_self _ _)
    obtain ⟨hopen, hrest⟩ := hscan
    have hjoin : acc ++ joinPieces inF ((t, x) :: ps) tail
        = (acc ++ t) ++ inF x ++ joinPieces inF ps tail := by
      simp [joinPieces, List.append_assoc]
    have hres' : resolve config (inF x) = outF x := hres
    have hshort' : (resolve config (inF x)).length ≤ (inF x).length := by
      rw [hres']; exact hshort
    obtain ⟨junk', hstep⟩ := fillTemplate_shrink_step config grow f (acc ++ t) (inF x)
      (joinPieces inF ps tail) junk e hopen hclose hend hshort'
    rw [hres'] at hstep
    have hih := ih (acc ++ t ++ outF x) tail junk' f
      (fun q hq => hmark q (List.mem_cons_of_mem _ hq)) hrest
      (by simp at hfuel; omega)
    rw [hjoin, hstep]
    cases hr : fillTemplate config grow f
        ⟨acc ++ t ++ outF x ++ joinPieces inF ps tail ++ junk',
          (acc ++ t ++ outF x ++ joinPieces inF ps tail).length⟩ with
    | none => rw [hr] at hih; simp at hih
    | some r =>
      obtain ⟨arr, res⟩ := r
      rw [hr] at hih
      simp only [Option.map_some', Option.some.injEq] at hih
      subst hih
      simp [joinPieces, List.append_assoc]

/-! ### What a marker span resolves to -/

theorem hasPrefix_nil (a : Bytes) : hasPrefix a [] = true := by
  cases a <;> rfl

theorem hasPrefix_self_append (a b : Bytes) : hasPrefix (a ++ b) a = true := by
  induction a with
  | nil => exact hasPrefix_nil b
  | cons c cs ih =>
    show (c == c && hasPrefix (cs ++ b) cs) = true
    simp [ih]

theorem hasPrefix_split (a sep : Bytes) (h : hasPrefix a sep = true) :
    ∃ rest, a = sep ++ rest := by
  induction a generalizing sep with
  | nil =>
    cases sep with
    | nil => exact ⟨[], rfl⟩
    | cons d ds => simp [hasPrefix] at h
  | cons c cs ih =>
    cases sep with
    | nil => exact ⟨c :: cs, rfl⟩
    | cons d ds =>
      simp only [hasPrefix, Bool.and_eq_true, beq_iff_eq] at h
      obtain ⟨rest, hrest⟩ := ih ds h.2
      exact ⟨rest, by rw [h.1, hrest]; rfl⟩

theorem removeAllAux_skip (old xs ys : Bytes) :
    removeAllAux old xs.length (xs ++ ys) = removeAllAux old 0 ys := by
  induction xs with
  | nil => rfl
  | cons x xs ih =>
    show removeAllAux old (xs.length + 1) (x :: (xs ++ ys)) = _
    rw [removeAllAux]
    exact ih

theorem removeAllAux_absent (old s : Bytes) (h : ∀ a b, s ≠ a ++ old ++ b) :
    removeAllAux old 0 s = s := by
  induction s with
  | nil => rfl
  | cons c cs ih =>
    have hp : hasPrefix (c :: cs) old = false := by
      cases hb : hasPrefix (c :: cs) old with
      | false => rfl
      | true =>
        obtain ⟨rest, hrest⟩ := hasPrefix_split _ _ hb
        exact absurd (by simpa using hrest) (h [] rest)
    have hcs : ∀ a b, cs ≠ a ++ old ++ b := by
      intro a b hab
      exact h (c :: a) b (by rw [hab]; rfl)
    rw [removeAllAux]
    simp only [hp, Bool.false_eq_true, if_false, ih hcs]

theorem removeAll_prefixed (old path : Bytes) (hold : old ≠ [])
    (h : ∀ a b, path ≠ a ++ old ++ b) :
    removeAll (old ++ path) old = path := by
  cases old with
  | nil => exact absurd rfl hold
  | cons o os =>
    unfold removeAll
    show removeAllAux (o :: os) 0 (o :: (os ++ path)) = path
    rw [removeAllAux]
    have hp : hasPrefix (o :: (os ++ path)) (o :: os) = true :=
      hasPrefix_self_append (o :: os) path
    simp only [hp, if_true, List.length_cons, Nat.add_sub_cancel]
    rw [removeAllAux_skip, removeAllAux_absent _ _ h]

theorem str_markerOpen : str "\x7b\x7b object.config."
    = [123, 123, 32, 111, 98, 106, 101, 99, 116, 46, 99, 111, 110, 102, 105, 103, 46] := by
  decide

theorem str_configPrefix : str "object.config."
    = [111, 98, 106, 101, 99, 116, 46, 99, 111, 110, 102, 105, 103, 46] := by
  decide

theorem str_markerClose : str " \x7d\x7d" = [32, 125, 125] := by decide

theorem str_cutset : str " \x7b\x7d" = [32, 123, 125] := by decide

theorem trim_marker (path : Bytes)
    (hlast : ∀ c, path.getLast? = some c → c ≠ 32 ∧ c ≠ 123 ∧ c ≠ 125) :
    trim (marker path) (str " \x7b\x7d") = str "object.config." ++ path := by
  unfold trim marker
  rw [str_markerOpen, str_configPrefix, str_markerClose, str_cutset]
  rcases List.eq_nil_or_concat path with rfl | ⟨init, c, rfl⟩
  · decide
  · have hc := hlast c (by simp)
    obtain ⟨h1, h2, h3⟩ := hc
    simp [List.dropWhile, h1, h2, h3]

theorem resolve_marker (config : Map) (path : Bytes) (h : PlainPath path) :
    resolve config (marker path) = valueAt config path := by
  unfold resolve valueAt
  rw [trim_marker path h.2, removeAll_prefixed _ _ (by decide) h.1]

/-- Claim C2, as amended: for a payload made of texts and marker spans
`{{ object.config.<path> }}`, where each path holds no further
`object.config.` and does not end in a space or a brace, each string the
configuration holds at a path is no longer than the marker span, the marker
spans are the ones the scan meets and no substitution leaves a new `{{`,
`fillTemplate` (with fuel for one call more than there are markers, whatever
the spare capacity of the buffer) returns the payload with each marker span
replaced by the string the configuration holds at its path, `changed`
exactly when there is a marker, and no error; the result is shorter than the
payload by the sum of the length differences. With no marker the payload
comes back unchanged and `changed` is false. -/
theorem fillTemplate_shrink (config : Map) (grow : Nat → Nat → Nat)
    (pieces : List (Bytes × Bytes)) (tail junk : Bytes) (fuel : Nat)
    (hmark : ∀ p ∈ pieces, PlainPath p.2 ∧ IsMarker (marker p.2)
      ∧ (valueAt config p.2).length ≤ (marker p.2).length)
    (hscan : ScanMeets marker (valueAt config) [] pieces tail)
    (hfuel : pieces.length < fuel) :
    (fillTemplate config grow fuel ⟨joinPieces marker pieces tail ++ junk,
        (joinPieces marker pieces tail).length⟩).map Prod.snd
      = some ⟨some (joinPieces (valueAt config) pieces tail), !pieces.isEmpty, none⟩
    ∧ (joinPieces (valueAt config) pieces tail).length
        + (pieces.map (fun p => (marker p.2).length - (valueAt config p.2).length)).sum
      = (joinPieces marker pieces tail).length := by
  constructor
  · have h := fillTemplate_shrink_aux config grow marker (valueAt config) pieces [] tail junk
      fuel (fun p hp => ⟨(hmark p hp).2.1, resolve_marker config p.2 (hmark p hp).1,
        (hmark p hp).2.2⟩) hscan hfuel
    simpa using h
  · clear hscan hfuel
    induction pieces with
    | nil => simp [joinPieces]
    | cons p ps ih =>
      obtain ⟨t, x⟩ := p
      have h1 := (hmark (t, x) (List.mem_cons_self _ _)).2.2
      have h2 := ih (fun q hq => hmark q (List.mem_cons_of_mem _ hq))
      simp only [joinPieces, List.length_append, List.map_cons, List.sum_cons] at h1 h2 ⊢
      omega

theorem fillTemplate_shrink_witness :
    (fillTemplate sampleConfig (fun _ _ => 0) 2
        (Slice.ofBytes tplSensor)).map Prod.snd
      = some ⟨some outSensor, true, none⟩
    ∧ outSensor.length + 27
      = tplSensor.length :=
  fillTemplate_shrink sampleConfig (fun _ _ => 0)
    [(str "\x7b\"x\":\"", str "sensor_id")] (str "\"\x7d") [] 2
    (by
      intro p hp
      simp only [List.mem_singleton] at hp
      subst hp
      refine ⟨⟨?_, ?_⟩, ⟨by decide, 27, by decide, by decide⟩, by decide⟩
      · intro a b h
        have hl := congrArg List.length h
        rw [str_configPrefix] at hl
        simp [str] at hl
        omega
      · intro c hc
        have h100 : c = 100 := by
          have : (str "sensor_id").getLast? = some 100 := by decide
          rw [this] at hc
          exact (Option.some.inj hc).symm
        subst h100
        decide)
    ⟨by decide, by unfold ScanMeets; decide⟩ (by decide)

/-- Claim C2 as stated fails for two kinds of path. `fillTemplate` removes
every `object.config.` of the marker text, so `{{ object.config.a.object.config.b }}`
is replaced by the string held at `a.b` while the configuration holds none
at `a.object.config.b`; and it trims braces and spaces off the end of the
path, so `{{ object.config.a} }}` is replaced by the string held at `a`,
not by the one held at `a}`, and likewise for a path ending in `{` or in
a space. -/
theorem fillTemplate_path_counterexample :
    (fillTemplate nestedConfig (fun _ _ => 0) 3
        (Slice.ofBytes (marker (str "a.object.config.b")))).map Prod.snd
      = some ⟨some (str "1"), true, none⟩
    ∧ valueAt nestedConfig (str "a.object.config.b") = []
    ∧ (fillTemplate braceConfig (fun _ _ => 0) 3
        (Slice.ofBytes (marker (str "a\x7d")))).map Prod.snd
      = some ⟨some (str "1"), true, none⟩
    ∧ valueAt braceConfig (str "a\x7d") = str "2"
    ∧ (fillTemplate braceConfig (fun _ _ => 0) 3
        (Slice.ofBytes (marker (str "a\x7b")))).map Prod.snd
      = some ⟨some (str "1"), true, none⟩
    ∧ valueAt braceConfig (str "a\x7b") = str "3"
    ∧ (fillTemplate braceConfig (fun _ _ => 0) 3
        (Slice.ofBytes (marker (str "a ")))).map Prod.snd
      = some ⟨some (str "1"), true, none⟩
    ∧ valueAt braceConfig (str "a ") = str "4" := by
  decide

end RicEdge
